import Mathlib

/-!
Verification of the Balance valuation engine.

This file gives a shallow embedding, in Lean 4, of the parts of the
repository needed to settle the frozen claims: the piecewise-linear zero
curve (`src/models/curve.py`), the portfolio risk metrics and the
valuation engine (`src/engine/valuation.py`), the CSA discounting engine
(`src/engine/collateral.py`), curve bootstrapping
(`src/models/calibration.py`), the fixed-rate bond (`src/products/bond.py`),
the mortgage loan (`src/products/mortgage.py`), the FX/CCS derivatives and
the callable bond (`build/lib/products/...`), and the Hull-White model
(`build/lib/models/hullwhite.py`).

Python floats are modelled as `ℚ` wherever the computation is rational
(curve interpolation, quantiles, bootstrap discount factors) and as `ℝ`
where the code calls transcendental functions (`exp`, `log`, `sqrt`).
Code that raises is modelled with `Option`: `none` is "raises".
-/

/-- Python's `round` on a rational value: round half to even, as used by
`int(round(x))` in the source. -/
def pyRound (q : ℚ) : ℤ :=
  let f : ℤ := ⌊q⌋
  let r : ℚ := q - f
  if r < 1/2 then f
  else if 1/2 < r then f + 1
  else if 2 ∣ f then f else f + 1

/-- Sort a list of rationals ascending (NumPy's sort used by `np.quantile`). -/
def sortQ (xs : List ℚ) : List ℚ := List.insertionSort (· ≤ ·) xs

/-- Zero-based indexing into a list of rationals, with junk default `0`
for out-of-range indices (all uses are guarded in range). -/
def nthQ (l : List ℚ) (i : ℕ) : ℚ := l.getD i 0

/-- Last element of a list of rationals, junk default `0` (NumPy `arr[-1]`
on the validated non-empty arrays). -/
def lastD : List ℚ → ℚ
  | [] => 0
  | [a] => a
  | _ :: b :: l => lastD (b :: l)

/-- Last-entry lookup in an association list, mirroring a Python `dict`
built by repeated assignment: a later binding for a key shadows an
earlier one (`upsert`-built lists have unique keys, so any-match and
last-match coincide there). -/
def lookupLast {α : Type} [DecidableEq α] {β : Type} : List (α × β) → α → Option β
  | [], _ => none
  | p :: rest, k =>
    match lookupLast rest k with
    | some v => some v
    | none => if p.1 = k then some p.2 else none

/-- `d[k] = v` on a Python dict represented as an association list with
unique keys: replace the binding if the key exists, else append. -/
def upsert {α : Type} [DecidableEq α] {β : Type} (l : List (α × β)) (k : α) (v : β) :
    List (α × β) :=
  if l.any (fun p => p.1 = k) then l.map (fun p => if p.1 = k then (k, v) else p)
  else l ++ [(k, v)]

/-! ## Zero curve (`src/models/curve.py`, `DeterministicZeroCurve`) -/

/-- `DeterministicZeroCurve`: piecewise-linear zero curve with continuous
compounding.  Tenors and zero rates are the two NumPy arrays of the
frozen dataclass. -/
structure DeterministicZeroCurve where
  tenors : List ℚ
  zero_rates : List ℚ

/-- The `__post_init__` validation of `DeterministicZeroCurve`: equal
lengths, at least two points, strictly increasing tenors. -/
def DeterministicZeroCurve.validCurve (c : DeterministicZeroCurve) : Prop :=
  c.tenors.length = c.zero_rates.length ∧
  2 ≤ c.tenors.length ∧
  c.tenors.Chain' (· < ·)

instance (c : DeterministicZeroCurve) : Decidable c.validCurve :=
  inferInstanceAs (Decidable (_ ∧ _ ∧ _))

/-- Core of `np.interp` on the open interior of the tenor range: walk the
bracketing segments and interpolate linearly in the bracketing segment.
Out-of-range inputs are clamped by the caller (`interp_zero_rate`), so the
catch-all `0` is unreachable under the caller's guards. -/
def npInterpSeg : List ℚ → List ℚ → ℚ → ℚ
  | x0 :: x1 :: xs, y0 :: y1 :: ys, t =>
    if t ≤ x1 then y0 + (y1 - y0) * (t - x0) / (x1 - x0)
    else npInterpSeg (x1 :: xs) (y1 :: ys) t
  | _, _, _ => 0

/-- `DeterministicZeroCurve._interp_zero_rate`: flat extrapolation outside
the tenor range, linear interpolation (via `np.interp`) inside. -/
def DeterministicZeroCurve.interp_zero_rate (c : DeterministicZeroCurve) (t : ℚ) : ℚ :=
  if t ≤ 0 then c.zero_rates.headD 0
  else if t ≤ c.tenors.headD 0 then c.zero_rates.headD 0
  else if lastD c.tenors ≤ t then lastD c.zero_rates
  else npInterpSeg c.tenors c.zero_rates t

/-- `DeterministicZeroCurve.discount_factor`: raises (`none`) for `t < 0`,
otherwise `exp(-r(t)·t)` with the interpolated zero rate `r(t)`. -/
noncomputable def DeterministicZeroCurve.discount_factor (c : DeterministicZeroCurve) (t : ℚ) : Option ℝ :=
  if t < 0 then none
  else some (Real.exp (-((c.interp_zero_rate t * t : ℚ) : ℝ)))

/-- `DeterministicZeroCurve.short_rate`: raises (`none`) for `t < 0`,
otherwise the interpolated zero rate. -/
def DeterministicZeroCurve.short_rate (c : DeterministicZeroCurve) (t : ℚ) : Option ℚ :=
  if t < 0 then none
  else some (c.interp_zero_rate t)

/-- All zero rates of the curve are non-negative. -/
def DeterministicZeroCurve.ratesNonneg (c : DeterministicZeroCurve) : Prop :=
  ∀ r ∈ c.zero_rates, (0:ℚ) ≤ r

instance (c : DeterministicZeroCurve) : Decidable c.ratesNonneg :=
  inferInstanceAs (Decidable (∀ r ∈ c.zero_rates, (0:ℚ) ≤ r))

/-- The zero rates are non-decreasing across tenors. -/
def DeterministicZeroCurve.ratesMonotone (c : DeterministicZeroCurve) : Prop :=
  c.zero_rates.Chain' (· ≤ ·)

instance (c : DeterministicZeroCurve) : Decidable c.ratesMonotone :=
  inferInstanceAs (Decidable (c.zero_rates.Chain' (· ≤ ·)))

/-! Interpolation lemmas used for curve monotonicity. -/

lemma lastD_cons_cons (a b : ℚ) (l : List ℚ) : lastD (a :: b :: l) = lastD (b :: l) := rfl

lemma chainle_head_le_last : ∀ (l : List ℚ), l.Chain' (· ≤ ·) → l.headD 0 ≤ lastD l := by
  intro l
  induction l with
  | nil => intro _; simp [lastD]
  | cons a l ih =>
    intro hl
    cases l with
    | nil => simp [lastD]
    | cons b l' =>
      have hab : a ≤ b := (List.chain'_cons.mp hl).1
      have htail := ih (List.chain'_cons.mp hl).2
      simp only [List.headD_cons] at htail ⊢
      rw [lastD_cons_cons]
      exact le_trans hab htail

lemma chainlt_head_lt_last : ∀ (l : List ℚ), l.Chain' (· < ·) → 2 ≤ l.length →
    l.headD 0 < lastD l := by
  intro l hl hlen
  cases l with
  | nil => simp at hlen
  | cons a l' =>
    cases l' with
    | nil => simp at hlen
    | cons b l'' =>
      have hab : a < b := (List.chain'_cons.mp hl).1
      have hle : (b :: l'').Chain' (· ≤ ·) :=
        List.Chain'.imp (fun _ _ h => le_of_lt h) (List.chain'_cons.mp hl).2
      have := chainle_head_le_last (b :: l'') hle
      simp only [List.headD_cons] at this ⊢
      rw [lastD_cons_cons]
      exact lt_of_lt_of_le hab this

lemma lastD_mem : ∀ (l : List ℚ), l ≠ [] → lastD l ∈ l := by
  intro l
  induction l with
  | nil => intro h; simp at h
  | cons a l' ih =>
    intro _
    cases l' with
    | nil => simp [lastD]
    | cons b l'' =>
      rw [lastD_cons_cons]
      exact List.mem_cons_of_mem a (ih (by simp))

lemma npInterpSeg_ge_head :
    ∀ (xs ys : List ℚ), xs.length = ys.length → xs.Chain' (· < ·) → ys.Chain' (· ≤ ·) →
      ∀ t : ℚ, xs.headD 0 ≤ t → t ≤ lastD xs → 2 ≤ xs.length →
      ys.headD 0 ≤ npInterpSeg xs ys t := by
  intro xs
  induction xs with
  | nil => intro ys _ _ _ t _ _ hlen2; simp at hlen2
  | cons x0 xs ih =>
    intro ys hlen hxs hys t hlo hhi hlen2
    cases xs with
    | nil => simp at hlen2
    | cons x1 xs' =>
      cases ys with
      | nil => simp at hlen
      | cons y0 ys' =>
        cases ys' with
        | nil => simp at hlen
        | cons y1 ys'' =>
          have hx01 : x0 < x1 := (List.chain'_cons.mp hxs).1
          have hy01 : y0 ≤ y1 := (List.chain'_cons.mp hys).1
          simp only [List.headD_cons] at hlo ⊢
          by_cases hle : t ≤ x1
          · simp only [npInterpSeg, hle, if_true]
            have hnum : 0 ≤ (y1 - y0) * (t - x0) / (x1 - x0) :=
              div_nonneg (mul_nonneg (by linarith) (by linarith)) (by linarith)
            linarith
          · simp only [npInterpSeg, hle, if_false]
            cases xs' with
            | nil =>
              exfalso
              rw [lastD_cons_cons] at hhi
              exact hle (le_trans hhi (by simp [lastD]))
            | cons x2 xs'' =>
              have hrec := ih (y1 :: ys'') (by simpa using hlen)
                (List.chain'_cons.mp hxs).2 (List.chain'_cons.mp hys).2 t
                (by simp only [List.headD_cons]; linarith)
                (by rw [lastD_cons_cons] at hhi; exact hhi) (by simp)
              simp only [List.headD_cons] at hrec
              linarith

lemma npInterpSeg_le_last :
    ∀ (xs ys : List ℚ), xs.length = ys.length → xs.Chain' (· < ·) → ys.Chain' (· ≤ ·) →
      ∀ t : ℚ, xs.headD 0 ≤ t → t ≤ lastD xs → 2 ≤ xs.length →
      npInterpSeg xs ys t ≤ lastD ys := by
  intro xs
  induction xs with
  | nil => intro ys _ _ _ t _ _ hlen2; simp at hlen2
  | cons x0 xs ih =>
    intro ys hlen hxs hys t hlo hhi hlen2
    cases xs with
    | nil => simp at hlen2
    | cons x1 xs' =>
      cases ys with
      | nil => simp at hlen
      | cons y0 ys' =>
        cases ys' with
        | nil => simp at hlen
        | cons y1 ys'' =>
          have hx01 : x0 < x1 := (List.chain'_cons.mp hxs).1
          have hy01 : y0 ≤ y1 := (List.chain'_cons.mp hys).1
          simp only [List.headD_cons] at hlo
          by_cases hle : t ≤ x1
          · simp only [npInterpSeg, hle, if_true]
            have hy1last : y1 ≤ lastD (y0 :: y1 :: ys'') := by
              rw [lastD_cons_cons]
              have := chainle_head_le_last (y1 :: ys'') (List.chain'_cons.mp hys).2
              simpa using this
            have hratio : (t - x0) / (x1 - x0) ≤ 1 :=
              (div_le_one (by linarith)).mpr (by linarith)
            have hterm : (y1 - y0) * (t - x0) / (x1 - x0) ≤ y1 - y0 := by
              rw [mul_div_assoc]
              exact mul_le_of_le_one_right (by linarith) hratio
            linarith
          · simp only [npInterpSeg, hle, if_false]
            cases xs' with
            | nil =>
              exfalso
              rw [lastD_cons_cons] at hhi
              exact hle (le_trans hhi (by simp [lastD]))
            | cons x2 xs'' =>
              have hrec := ih (y1 :: ys'') (by simpa using hlen)
                (List.chain'_cons.mp hxs).2 (List.chain'_cons.mp hys).2 t
                (by simp only [List.headD_cons]; linarith)
                (by rw [lastD_cons_cons] at hhi; exact hhi) (by simp)
              rw [lastD_cons_cons]
              exact hrec

lemma npInterpSeg_mono :
    ∀ (xs ys : List ℚ), xs.length = ys.length → xs.Chain' (· < ·) → ys.Chain' (· ≤ ·) →
      ∀ t t' : ℚ, xs.headD 0 ≤ t → t ≤ t' → t' ≤ lastD xs → 2 ≤ xs.length →
      npInterpSeg xs ys t ≤ npInterpSeg xs ys t' := by
  intro xs
  induction xs with
  | nil => intro ys _ _ _ t t' _ _ _ hlen2; simp at hlen2
  | cons x0 xs ih =>
    intro ys hlen hxs hys t t' hlo htt hhi hlen2
    cases xs with
    | nil => simp at hlen2
    | cons x1 xs' =>
      cases ys with
      | nil => simp at hlen
      | cons y0 ys' =>
        cases ys' with
        | nil => simp at hlen
        | cons y1 ys'' =>
          have hx01 : x0 < x1 := (List.chain'_cons.mp hxs).1
          have hy01 : y0 ≤ y1 := (List.chain'_cons.mp hys).1
          simp only [List.headD_cons] at hlo
          by_cases hle' : t' ≤ x1
          · have hle : t ≤ x1 := le_trans htt hle'
            simp only [npInterpSeg, hle, hle', if_true]
            have hnum : (y1 - y0) * (t - x0) ≤ (y1 - y0) * (t' - x0) :=
              mul_le_mul_of_nonneg_left (by linarith) (by linarith)
            have hinv : (0:ℚ) ≤ (x1 - x0)⁻¹ := inv_nonneg.mpr (by linarith)
            have : (y1 - y0) * (t - x0) / (x1 - x0) ≤ (y1 - y0) * (t' - x0) / (x1 - x0) := by
              rw [div_eq_mul_inv, div_eq_mul_inv]
              exact mul_le_mul_of_nonneg_right hnum hinv
            linarith
          · by_cases hle : t ≤ x1
            · -- t in the first segment, t' strictly beyond it
              simp only [npInterpSeg, hle, hle', if_true, if_false]
              cases xs' with
              | nil =>
                exfalso
                rw [lastD_cons_cons] at hhi
                exact hle' (le_trans hhi (by simp [lastD]))
              | cons x2 xs'' =>
                have hseg_le_y1 : y0 + (y1 - y0) * (t - x0) / (x1 - x0) ≤ y1 := by
                  have hratio : (t - x0) / (x1 - x0) ≤ 1 :=
                    (div_le_one (by linarith)).mpr (by linarith)
                  have hterm : (y1 - y0) * (t - x0) / (x1 - x0) ≤ y1 - y0 := by
                    rw [mul_div_assoc]
                    exact mul_le_of_le_one_right (by linarith) hratio
                  linarith
                have hge := npInterpSeg_ge_head (x1 :: x2 :: xs'') (y1 :: ys'')
                  (by simpa using hlen) (List.chain'_cons.mp hxs).2
                  (List.chain'_cons.mp hys).2 t'
                  (by simp only [List.headD_cons]; linarith)
                  (by rw [lastD_cons_cons] at hhi; exact hhi) (by simp)
                simp only [List.headD_cons] at hge
                linarith
            · simp only [npInterpSeg, hle, hle', if_false]
              cases xs' with
              | nil =>
                exfalso
                rw [lastD_cons_cons] at hhi
                exact hle' (le_trans hhi (by simp [lastD]))
              | cons x2 xs'' =>
                exact ih (y1 :: ys'') (by simpa using hlen)
                  (List.chain'_cons.mp hxs).2 (List.chain'_cons.mp hys).2 t t'
                  (by simp only [List.headD_cons]; linarith) htt
                  (by rw [lastD_cons_cons] at hhi; exact hhi) (by simp)

lemma headD_mem (l : List ℚ) (h : l ≠ []) : l.headD 0 ∈ l := by
  cases l with
  | nil => exact absurd rfl h
  | cons a l' => simp

lemma interp_zero_rate_nonneg (c : DeterministicZeroCurve) (hv : c.validCurve)
    (hn : c.ratesNonneg) (hm : c.ratesMonotone) (t : ℚ) : 0 ≤ c.interp_zero_rate t := by
  obtain ⟨hlen, hlen2, hch⟩ := hv
  have hzlen : 2 ≤ c.zero_rates.length := hlen ▸ hlen2
  have hzne : c.zero_rates ≠ [] := by
    intro h; rw [h] at hzlen; simp at hzlen
  unfold DeterministicZeroCurve.interp_zero_rate
  by_cases h1 : t ≤ 0
  · simp only [h1, if_true]; exact hn _ (headD_mem _ hzne)
  · simp only [h1, if_false]
    by_cases h2 : t ≤ c.tenors.headD 0
    · simp only [h2, if_true]; exact hn _ (headD_mem _ hzne)
    · simp only [h2, if_false]
      by_cases h3 : lastD c.tenors ≤ t
      · simp only [h3, if_true]; exact hn _ (lastD_mem _ hzne)
      · simp only [h3, if_false]
        have hge := npInterpSeg_ge_head c.tenors c.zero_rates hlen hch hm t
          (le_of_lt (lt_of_not_le h2)) (le_of_lt (lt_of_not_le h3)) hlen2
        exact le_trans (hn _ (headD_mem _ hzne)) hge

lemma interp_zero_rate_mono (c : DeterministicZeroCurve) (hv : c.validCurve)
    (hm : c.ratesMonotone) {t1 t2 : ℚ} (h12 : t1 ≤ t2) :
    c.interp_zero_rate t1 ≤ c.interp_zero_rate t2 := by
  obtain ⟨hlen, hlen2, hch⟩ := hv
  have hzlen : 2 ≤ c.zero_rates.length := hlen ▸ hlen2
  have hzne : c.zero_rates ≠ [] := by
    intro h; rw [h] at hzlen; simp at hzlen
  have hheadlast : c.zero_rates.headD 0 ≤ lastD c.zero_rates := chainle_head_le_last _ hm
  have htenhl : c.tenors.headD 0 < lastD c.tenors := chainlt_head_lt_last _ hch hlen2
  unfold DeterministicZeroCurve.interp_zero_rate
  by_cases ha1 : t1 ≤ 0
  · simp only [ha1, if_true]
    by_cases ha2 : t2 ≤ 0
    · simp only [ha2, if_true]; exact le_refl _
    · simp only [ha2, if_false]
      by_cases hb2 : t2 ≤ c.tenors.headD 0
      · simp only [hb2, if_true]; exact le_refl _
      · simp only [hb2, if_false]
        by_cases hc2 : lastD c.tenors ≤ t2
        · simp only [hc2, if_true]; exact hheadlast
        · simp only [hc2, if_false]
          exact npInterpSeg_ge_head c.tenors c.zero_rates hlen hch hm t2
            (le_of_lt (lt_of_not_le hb2)) (le_of_lt (lt_of_not_le hc2)) hlen2
  · simp only [ha1, if_false]
    have ha2 : ¬ t2 ≤ 0 := fun h => ha1 (le_trans h12 h)
    simp only [ha2, if_false]
    by_cases hb1 : t1 ≤ c.tenors.headD 0
    · simp only [hb1, if_true]
      by_cases hb2 : t2 ≤ c.tenors.headD 0
      · simp only [hb2, if_true]; exact le_refl _
      · simp only [hb2, if_false]
        by_cases hc2 : lastD c.tenors ≤ t2
        · simp only [hc2, if_true]; exact hheadlast
        · simp only [hc2, if_false]
          exact npInterpSeg_ge_head c.tenors c.zero_rates hlen hch hm t2
            (le_of_lt (lt_of_not_le hb2)) (le_of_lt (lt_of_not_le hc2)) hlen2
    · simp only [hb1, if_false]
      have hb2 : ¬ t2 ≤ c.tenors.headD 0 := fun h => hb1 (le_trans h12 h)
      simp only [hb2, if_false]
      by_cases hc1 : lastD c.tenors ≤ t1
      · simp only [hc1, if_true]
        have hc2 : lastD c.tenors ≤ t2 := le_trans hc1 h12
        simp only [hc2, if_true]; exact le_refl _
      · simp only [hc1, if_false]
        by_cases hc2 : lastD c.tenors ≤ t2
        · simp only [hc2, if_true]
          exact npInterpSeg_le_last c.tenors c.zero_rates hlen hch hm t1
            (le_of_lt (lt_of_not_le hb1)) (le_of_lt (lt_of_not_le hc1)) hlen2
        · simp only [hc2, if_false]
          exact npInterpSeg_mono c.tenors c.zero_rates hlen hch hm t1 t2
            (le_of_lt (lt_of_not_le hb1)) h12 (le_of_lt (lt_of_not_le hc2)) hlen2

/-- The curve used as counterexample for claim C3: valid, non-negative
zero rates, but the rates fall from 10% at tenor 1 to 0% at tenor 2. -/
def cexCurveC3 : DeterministicZeroCurve := ⟨[1, 2], [1/10, 0]⟩

/-- The curve used as witness input for the amended claim C3. -/
def wCurveC3 : DeterministicZeroCurve := ⟨[1, 2], [1/100, 2/100]⟩

/-- C3: the claim as stated is false on the code.  `cexCurveC3` is a
validly constructed zero curve with all zero rates `≥ 0`, yet its
discount factor strictly increases from `t = 1` to `t = 2`
(`exp(-0.1) < exp(0)`), so `discount_factor` is not non-increasing. -/
theorem C3_counterexample :
    cexCurveC3.validCurve ∧ cexCurveC3.ratesNonneg ∧ (0:ℚ) ≤ 1 ∧ (1:ℚ) ≤ 2 ∧
    ¬ ((cexCurveC3.discount_factor 2).getD 0 ≤ (cexCurveC3.discount_factor 1).getD 0) := by
  refine ⟨⟨by simp [cexCurveC3], by simp [cexCurveC3], by
      simp [cexCurveC3, List.chain'_cons]⟩,
    by intro r hr; simp [cexCurveC3] at hr; rcases hr with rfl | rfl <;> norm_num,
    by norm_num, by norm_num, ?_⟩
  have h1 : cexCurveC3.discount_factor 1 =
      some (Real.exp (-((1/10 : ℚ) : ℝ))) := by
    have hi : cexCurveC3.interp_zero_rate 1 = 1/10 := by
      simp [cexCurveC3, DeterministicZeroCurve.interp_zero_rate, lastD]
    simp [DeterministicZeroCurve.discount_factor, hi]
  have h2 : cexCurveC3.discount_factor 2 = some 1 := by
    have hi : cexCurveC3.interp_zero_rate 2 = 0 := by
      simp [cexCurveC3, DeterministicZeroCurve.interp_zero_rate, lastD]
    simp [DeterministicZeroCurve.discount_factor, hi]
  rw [h1, h2]
  simp only [Option.getD_some]
  intro hle
  have : Real.exp (-((1/10 : ℚ) : ℝ)) < 1 := by
    apply Real.exp_lt_one_iff.mpr
    norm_num
  linarith

/-- C3 (amended): for every zero curve, `discount_factor` raises on
`t < 0`; for every validly constructed zero curve `discount_factor 0 = 1`;
and whenever all of the curve's zero rates are non-negative AND
non-decreasing across tenors, `discount_factor` is non-increasing on
`t ≥ 0`.  (The extra monotone-rates hypothesis is forced by
`C3_counterexample`: non-negative rates alone do not make the discount
factor non-increasing.) -/
theorem C3_discount_factor_amended :
    (∀ (c : DeterministicZeroCurve) (t : ℚ), t < 0 → c.discount_factor t = none) ∧
    (∀ (c : DeterministicZeroCurve), c.validCurve → c.discount_factor 0 = some 1) ∧
    (∀ (c : DeterministicZeroCurve), c.validCurve → c.ratesNonneg → c.ratesMonotone →
      ∀ t1 t2 : ℚ, 0 ≤ t1 → t1 ≤ t2 →
      ∀ d1 d2 : ℝ, c.discount_factor t1 = some d1 → c.discount_factor t2 = some d2 →
      d2 ≤ d1) := by
  refine ⟨?_, ?_, ?_⟩
  · intro c t ht
    simp [DeterministicZeroCurve.discount_factor, ht]
  · intro c _
    simp [DeterministicZeroCurve.discount_factor]
  · intro c hv hn hm t1 t2 ht1 h12 d1 d2 hd1 hd2
    have hn1 : ¬ t1 < 0 := not_lt.mpr ht1
    have hn2 : ¬ t2 < 0 := not_lt.mpr (le_trans ht1 h12)
    simp only [DeterministicZeroCurve.discount_factor, hn1, hn2, if_false,
      Option.some.injEq] at hd1 hd2
    subst hd1; subst hd2
    apply Real.exp_le_exp.mpr
    have hexp : c.interp_zero_rate t1 * t1 ≤ c.interp_zero_rate t2 * t2 := by
      have hr12 : c.interp_zero_rate t1 ≤ c.interp_zero_rate t2 :=
        interp_zero_rate_mono c hv hm h12
      have hr2 : 0 ≤ c.interp_zero_rate t2 := interp_zero_rate_nonneg c hv hn hm t2
      have h1 : c.interp_zero_rate t1 * t1 ≤ c.interp_zero_rate t2 * t1 :=
        mul_le_mul_of_nonneg_right hr12 ht1
      have h2 : c.interp_zero_rate t2 * t1 ≤ c.interp_zero_rate t2 * t2 :=
        mul_le_mul_of_nonneg_left h12 hr2
      linarith
    have : ((c.interp_zero_rate t1 * t1 : ℚ) : ℝ) ≤ ((c.interp_zero_rate t2 * t2 : ℚ) : ℝ) := by
      exact_mod_cast hexp
    linarith

/-- Witness for `C3_discount_factor_amended` at the concrete curve
`wCurveC3`, times `t1 = 1`, `t2 = 3`. -/
theorem C3_witness :
    wCurveC3.validCurve ∧ wCurveC3.ratesNonneg ∧ wCurveC3.ratesMonotone ∧
    (wCurveC3.discount_factor 3).getD 0 ≤ (wCurveC3.discount_factor 1).getD 0 := by
  have hv : wCurveC3.validCurve :=
    ⟨by simp [wCurveC3], by simp [wCurveC3], by simp [wCurveC3, List.chain'_cons]⟩
  have hn : wCurveC3.ratesNonneg := by
    intro r hr; simp [wCurveC3] at hr; rcases hr with rfl | rfl <;> norm_num
  have hm : wCurveC3.ratesMonotone := by
    simp [wCurveC3, DeterministicZeroCurve.ratesMonotone, List.chain'_cons]; norm_num
  refine ⟨hv, hn, hm, ?_⟩
  have h1 : wCurveC3.discount_factor 1 =
      some (Real.exp (-((wCurveC3.interp_zero_rate 1 * 1 : ℚ) : ℝ))) := by
    simp [DeterministicZeroCurve.discount_factor]
  have h3 : wCurveC3.discount_factor 3 =
      some (Real.exp (-((wCurveC3.interp_zero_rate 3 * 3 : ℚ) : ℝ))) := by
    simp [DeterministicZeroCurve.discount_factor]
  have := C3_discount_factor_amended.2.2 wCurveC3 hv hn hm
    1 3 (by norm_num) (by norm_num) _ _ h1 h3
  rw [h1, h3]
  simpa using this

/-! ## Portfolio risk metrics (`src/engine/valuation.py`, `ValuationResult`) -/

/-- `np.max` over a non-empty array (junk `0` on the empty list; NumPy
raises there, and callers in this file guard the empty case). -/
def npMax : List ℚ → ℚ
  | [] => 0
  | x :: r => r.foldl max x

/-- `np.quantile(a, q)` with the default linear interpolation method:
sort ascending, take `h = (n-1)q` and interpolate between the values at
positions `floor h` and `ceil h`. -/
def npQuantile (xs : List ℚ) (q : ℚ) : ℚ :=
  let s := sortQ xs
  let n := s.length
  let h : ℚ := ((n : ℚ) - 1) * q
  let i : ℕ := (⌊h⌋).toNat
  let j : ℕ := (⌈h⌉).toNat
  nthQ s i + (h - (i : ℚ)) * (nthQ s j - nthQ s i)

/-- `ValuationResult`: map from scenario name to total PV, plus the array
of per-scenario portfolio PVs. -/
structure ValuationResult where
  scenario_pv : List (String × ℚ)
  portfolio_pv_distribution : List ℚ

/-- The base PV used by `pvat_risk` / `expected_shortfall`: the
`parallel_shift_+0bps` entry of `scenario_pv` when present, otherwise
the maximum of the PV distribution (`none` when NumPy would raise on an
empty distribution). -/
def ValuationResult.basePV (r : ValuationResult) : Option ℚ :=
  match lookupLast r.scenario_pv "parallel_shift_+0bps" with
  | some v => some v
  | none =>
    if r.portfolio_pv_distribution.isEmpty then none
    else some (npMax r.portfolio_pv_distribution)

/-- `ValuationResult.pvat_risk`: raises unless `0 < confidence < 1`, then
base PV minus the `(1-confidence)`-quantile of the distribution. -/
def ValuationResult.pvat_risk (r : ValuationResult) (confidence : ℚ) : Option ℚ :=
  if ¬ (0 < confidence ∧ confidence < 1) then none
  else match r.basePV with
    | none => none
    | some base =>
      if r.portfolio_pv_distribution.isEmpty then none
      else some (base - npQuantile r.portfolio_pv_distribution (1 - confidence))

/-- `ValuationResult.expected_shortfall`: raises unless
`0 < confidence < 1`; losses are `base - PV`, VaR is their
`confidence`-quantile, and the result is the mean of the losses at or
above VaR (`0.0` when no loss qualifies). -/
def ValuationResult.expected_shortfall (r : ValuationResult) (confidence : ℚ) : Option ℚ :=
  if ¬ (0 < confidence ∧ confidence < 1) then none
  else match r.basePV with
    | none => none
    | some base =>
      if r.portfolio_pv_distribution.isEmpty then none
      else
        let losses := r.portfolio_pv_distribution.map (fun pv => base - pv)
        let varLoss := npQuantile losses confidence
        let tail := losses.filter (fun l => varLoss ≤ l)
        if tail.isEmpty then some 0
        else some (tail.sum / tail.length)

/-! Quantile lemmas. -/

lemma sortQ_sorted (xs : List ℚ) : (sortQ xs).Sorted (· ≤ ·) :=
  List.sorted_insertionSort _ xs

lemma sortQ_perm (xs : List ℚ) : List.Perm (sortQ xs) xs :=
  List.perm_insertionSort _ xs

lemma sortQ_length (xs : List ℚ) : (sortQ xs).length = xs.length :=
  (sortQ_perm xs).length_eq

lemma sortQ_mem {xs : List ℚ} {a : ℚ} (h : a ∈ sortQ xs) : a ∈ xs :=
  (sortQ_perm xs).mem_iff.mp h

lemma nthQ_mem (l : List ℚ) (i : ℕ) (h : i < l.length) : nthQ l i ∈ l := by
  rw [nthQ, List.getD_eq_getElem _ _ h]
  exact List.getElem_mem h

lemma nthQ_mono (l : List ℚ) (hl : l.Sorted (· ≤ ·)) {i j : ℕ} (hij : i ≤ j)
    (hj : j < l.length) : nthQ l i ≤ nthQ l j := by
  rw [nthQ, nthQ, List.getD_eq_getElem _ _ (lt_of_le_of_lt hij hj),
    List.getD_eq_getElem _ _ hj]
  exact List.Sorted.rel_get_of_le hl hij

lemma sortQ_map_sub (b : ℚ) (xs : List ℚ) :
    sortQ (xs.map (fun x => b - x)) = ((sortQ xs).map (fun x => b - x)).reverse := by
  apply List.eq_of_perm_of_sorted ?_ (sortQ_sorted _) ?_
  · have p1 := sortQ_perm (xs.map (fun x => b - x))
    have p2 : List.Perm ((sortQ xs).map (fun x => b - x)) (xs.map (fun x => b - x)) :=
      List.Perm.map _ (sortQ_perm xs)
    have p3 := List.reverse_perm (((sortQ xs).map (fun x => b - x)))
    exact p1.trans (p2.symm.trans p3.symm)
  · rw [List.Sorted, List.pairwise_reverse]
    exact List.Pairwise.map _ (fun a c hac => by simp; linarith) (sortQ_sorted xs)

lemma nthQ_reverse_map (b : ℚ) (s : List ℚ) (k : ℕ) (hk : k < s.length) :
    nthQ ((s.map (fun x => b - x)).reverse) k = b - nthQ s (s.length - 1 - k) := by
  rw [nthQ, nthQ]
  rw [List.getD_eq_getElem _ _ (by simpa using hk)]
  rw [List.getD_eq_getElem _ _ (by omega)]
  rw [List.getElem_reverse]
  simp

lemma npQuantile_map_sub (xs : List ℚ) (hne : xs ≠ []) (b q : ℚ)
    (h0 : 0 ≤ q) (h1 : q ≤ 1) :
    npQuantile (xs.map (fun x => b - x)) q = b - npQuantile xs (1 - q) := by
  have hn1 : 1 ≤ xs.length := List.length_pos.mpr hne
  set s : List ℚ := sortQ xs with hs
  set n : ℕ := xs.length with hndef
  have hslen : s.length = n := sortQ_length xs
  set g : ℚ := ((n : ℚ) - 1) * q with hg
  have hcast : ((n : ℚ) - 1) = ((n - 1 : ℕ) : ℚ) := by
    push_cast [Nat.cast_sub hn1]; ring
  have hg0 : 0 ≤ g := mul_nonneg (by rw [hcast]; positivity) h0
  have hg1 : g ≤ (n : ℚ) - 1 := by
    calc g ≤ ((n : ℚ) - 1) * 1 := by
          apply mul_le_mul_of_nonneg_left h1 (by rw [hcast]; positivity)
      _ = (n : ℚ) - 1 := by ring
  have hfl0 : (0:ℤ) ≤ ⌊g⌋ := Int.floor_nonneg.mpr hg0
  have hcl0 : (0:ℤ) ≤ ⌈g⌉ := le_trans hfl0 (Int.floor_le_ceil g)
  have hcl_le : ⌈g⌉ ≤ (n : ℤ) - 1 := by
    apply Int.ceil_le.mpr
    push_cast
    exact hg1
  have hfl_le : ⌊g⌋ ≤ (n : ℤ) - 1 := le_trans (Int.floor_le_ceil g) hcl_le
  set i : ℕ := (⌊g⌋).toNat with hi
  set j : ℕ := (⌈g⌉).toNat with hj
  have hiz : (i : ℤ) = ⌊g⌋ := Int.toNat_of_nonneg hfl0
  have hjz : (j : ℤ) = ⌈g⌉ := Int.toNat_of_nonneg hcl0
  have hflc : ⌊g⌋ ≤ ⌈g⌉ := Int.floor_le_ceil g
  have hij : i ≤ j := by omega
  have hjn : j ≤ n - 1 := by omega
  have hin : i ≤ n - 1 := le_trans hij hjn
  have hflR : ⌊((n : ℚ) - 1) * (1 - q)⌋ = (n : ℤ) - 1 - ⌈g⌉ := by
    have hgR : ((n : ℚ) - 1) * (1 - q) = ((n - 1 : ℤ) : ℚ) + -g := by
      push_cast; rw [hg]; ring
    rw [hgR, Int.floor_int_add, Int.floor_neg]
    ring
  have hclR : ⌈((n : ℚ) - 1) * (1 - q)⌉ = (n : ℤ) - 1 - ⌊g⌋ := by
    have hgR : ((n : ℚ) - 1) * (1 - q) = -g + ((n - 1 : ℤ) : ℚ) := by
      push_cast; rw [hg]; ring
    rw [hgR, Int.ceil_add_int, Int.ceil_neg]
    ring
  have hiR : (⌊((n : ℚ) - 1) * (1 - q)⌋).toNat = n - 1 - j := by omega
  have hjR : (⌈((n : ℚ) - 1) * (1 - q)⌉).toNat = n - 1 - i := by omega
  have hlenmap : (sortQ (xs.map (fun x => b - x))).length = n := by
    rw [sortQ_length]; simp [hndef]
  have hA : nthQ (sortQ (xs.map (fun x => b - x))) i = b - nthQ s (n - 1 - i) := by
    rw [sortQ_map_sub b xs, ← hs, nthQ_reverse_map b s i (by omega), hslen]
  have hB : nthQ (sortQ (xs.map (fun x => b - x))) j = b - nthQ s (n - 1 - j) := by
    rw [sortQ_map_sub b xs, ← hs, nthQ_reverse_map b s j (by omega), hslen]
  simp only [npQuantile]
  rw [← hs, hlenmap, hslen, ← hg, ← hi, ← hj, hiR, hjR, hA, hB]
  have hn1jQ : (((n - 1 - j : ℕ)) : ℚ) = ((n : ℚ) - 1) - (j : ℚ) := by
    push_cast [Nat.cast_sub hjn, Nat.cast_sub hn1]; ring
  rw [hn1jQ]
  have hceil_cases : ⌈g⌉ = ⌊g⌋ ∨ ⌈g⌉ = ⌊g⌋ + 1 := by
    have h2 := Int.ceil_le_floor_add_one g
    have h3 := Int.floor_le_ceil g
    omega
  rcases hceil_cases with hc | hc
  · have hieqj : i = j := by omega
    rw [hieqj, hg]
    ring
  · have hjq : (j : ℚ) = (i : ℚ) + 1 := by
      have : (j : ℤ) = (i : ℤ) + 1 := by omega
      exact_mod_cast this
    rw [hjq, hg]
    ring

lemma npQuantile_le_nth_last (xs : List ℚ) (hne : xs ≠ []) (q : ℚ)
    (h0 : 0 ≤ q) (h1 : q ≤ 1) :
    npQuantile xs q ≤ nthQ (sortQ xs) (xs.length - 1) := by
  have hn1 : 1 ≤ xs.length := List.length_pos.mpr hne
  set s : List ℚ := sortQ xs with hs
  set n : ℕ := xs.length with hndef
  have hslen : s.length = n := sortQ_length xs
  set g : ℚ := ((n : ℚ) - 1) * q with hg
  have hcast : ((n : ℚ) - 1) = ((n - 1 : ℕ) : ℚ) := by
    push_cast [Nat.cast_sub hn1]; ring
  have hg0 : 0 ≤ g := mul_nonneg (by rw [hcast]; positivity) h0
  have hg1 : g ≤ (n : ℚ) - 1 := by
    calc g ≤ ((n : ℚ) - 1) * 1 := by
          apply mul_le_mul_of_nonneg_left h1 (by rw [hcast]; positivity)
      _ = (n : ℚ) - 1 := by ring
  have hfl0 : (0:ℤ) ≤ ⌊g⌋ := Int.floor_nonneg.mpr hg0
  have hflc : ⌊g⌋ ≤ ⌈g⌉ := Int.floor_le_ceil g
  have hcl0 : (0:ℤ) ≤ ⌈g⌉ := le_trans hfl0 hflc
  have hcl_le : ⌈g⌉ ≤ (n : ℤ) - 1 := by
    apply Int.ceil_le.mpr
    push_cast
    exact hg1
  set i : ℕ := (⌊g⌋).toNat with hi
  set j : ℕ := (⌈g⌉).toNat with hj
  have hiz : (i : ℤ) = ⌊g⌋ := Int.toNat_of_nonneg hfl0
  have hjz : (j : ℤ) = ⌈g⌉ := Int.toNat_of_nonneg hcl0
  have hij : i ≤ j := by omega
  have hjn : j ≤ n - 1 := by omega
  have hsort : s.Sorted (· ≤ ·) := sortQ_sorted xs
  have hAB : nthQ s i ≤ nthQ s j := nthQ_mono s hsort hij (by omega)
  have hBlast : nthQ s j ≤ nthQ s (n - 1) := nthQ_mono s hsort hjn (by omega)
  have hgf0 : 0 ≤ g - (i : ℚ) := by
    have := Int.floor_le g
    rw [← hiz] at this
    push_cast at this ⊢
    linarith
  have hgf1 : g - (i : ℚ) ≤ 1 := by
    have := Int.lt_floor_add_one g
    rw [← hiz] at this
    push_cast at this ⊢
    linarith
  simp only [npQuantile]
  rw [← hs, hslen, ← hg, ← hi, ← hj]
  have hstep : nthQ s i + (g - (i : ℚ)) * (nthQ s j - nthQ s i) ≤ nthQ s j := by
    have h := mul_le_of_le_one_left (by linarith : (0:ℚ) ≤ nthQ s j - nthQ s i) hgf1
    linarith
  exact le_trans hstep hBlast

/-- C2: for every `ValuationResult` with a non-empty PV distribution and
every confidence in `(0,1)`, both metrics are defined and
`expected_shortfall >= pvat_risk`.  The link is the quantile reflection
`quantile(base - dist, c) = base - quantile(dist, 1 - c)` together with
the fact that the loss tail at or above VaR is non-empty and its mean is
at least VaR. -/
theorem C2_expected_shortfall_ge_pvat_risk (spv : List (String × ℚ)) (dist : List ℚ)
    (c : ℚ) (hne : dist ≠ []) (h0 : 0 < c) (h1 : c < 1) :
    ∃ v e, (ValuationResult.mk spv dist).pvat_risk c = some v ∧
      (ValuationResult.mk spv dist).expected_shortfall c = some e ∧ v ≤ e := by
  have hguard : ¬ ¬ (0 < c ∧ c < 1) := not_not_intro ⟨h0, h1⟩
  have hempty : dist.isEmpty = false := by
    cases dist with
    | nil => exact absurd rfl hne
    | cons a l => rfl
  obtain ⟨base, hbase⟩ : ∃ base, (ValuationResult.mk spv dist).basePV = some base := by
    unfold ValuationResult.basePV
    cases hlk : lookupLast spv "parallel_shift_+0bps" with
    | some v0 => exact ⟨v0, rfl⟩
    | none => exact ⟨npMax dist, by simp [hempty]⟩
  set losses : List ℚ := dist.map (fun pv => base - pv) with hlosses
  set varLoss : ℚ := npQuantile losses c with hvarLoss
  have hlne : losses ≠ [] := by
    rw [hlosses]
    simp [hne]
  have hreflect : varLoss = base - npQuantile dist (1 - c) :=
    npQuantile_map_sub dist hne base c (le_of_lt h0) (le_of_lt h1)
  have hlastmem : nthQ (sortQ losses) (losses.length - 1) ∈ losses := by
    apply sortQ_mem
    apply nthQ_mem
    rw [sortQ_length]
    have := List.length_pos.mpr hlne
    omega
  have hvarle : varLoss ≤ nthQ (sortQ losses) (losses.length - 1) :=
    npQuantile_le_nth_last losses hlne c (le_of_lt h0) (le_of_lt h1)
  set tail : List ℚ := losses.filter (fun l => varLoss ≤ l) with htail
  have htailmem : nthQ (sortQ losses) (losses.length - 1) ∈ tail := by
    rw [htail]
    exact List.mem_filter.mpr ⟨hlastmem, by simpa using hvarle⟩
  have htailne : tail ≠ [] := by
    intro h
    rw [h] at htailmem
    simp at htailmem
  have htailempty : tail.isEmpty = false := by
    cases ht : tail with
    | nil => exact absurd ht htailne
    | cons a l => rfl
  refine ⟨base - npQuantile dist (1 - c), tail.sum / tail.length, ?_, ?_, ?_⟩
  · unfold ValuationResult.pvat_risk
    simp only [hguard, if_false, hbase, hempty]
    rfl
  · unfold ValuationResult.expected_shortfall
    simp only [hguard, if_false, hbase, hempty]
    rw [← hlosses, ← hvarLoss, ← htail, htailempty]
    rfl
  · rw [← hreflect]
    have hall : ∀ x ∈ tail, varLoss ≤ x := by
      intro x hx
      rw [htail] at hx
      have := List.mem_filter.mp hx
      simpa using this.2
    have hlen : (0:ℚ) < tail.length := by
      have := List.length_pos.mpr htailne
      exact_mod_cast this
    rw [le_div_iff₀ hlen]
    have hsum := List.card_nsmul_le_sum tail varLoss hall
    calc varLoss * tail.length = tail.length • varLoss := by rw [nsmul_eq_mul]; ring
      _ ≤ tail.sum := hsum

/-- Witness for `C2_expected_shortfall_ge_pvat_risk` at the concrete
result `{scenario_pv = [], distribution = [1, 2]}` and confidence `1/2`. -/
theorem C2_witness :
    ∃ v e, (ValuationResult.mk [] [1, 2]).pvat_risk (1/2) = some v ∧
      (ValuationResult.mk [] [1, 2]).expected_shortfall (1/2) = some e ∧ v ≤ e :=
  C2_expected_shortfall_ge_pvat_risk [] [1, 2] (1/2) (by simp) (by norm_num) (by norm_num)

/-- The base-scenario PV as the spec words it for `pvat_risk`: "the
scenario_pv entry named parallel_shift_+0bps when that key is present and
otherwise the maximum value of the PV distribution" (total function;
callers assume a non-empty distribution). -/
def specBasePV (r : ValuationResult) : ℚ :=
  match lookupLast r.scenario_pv "parallel_shift_+0bps" with
  | some v => v
  | none => npMax r.portfolio_pv_distribution

/-- C5: for every `ValuationResult` with a non-empty distribution and
confidence in `(0,1)`, `pvat_risk` equals the spec's formula
`basePV - quantile(distribution, 1 - confidence)` with the spec's base-PV
policy (`parallel_shift_+0bps` entry if present, else the distribution
maximum). -/
theorem C5_pvat_risk_formula (spv : List (String × ℚ)) (dist : List ℚ)
    (c : ℚ) (hne : dist ≠ []) (h0 : 0 < c) (h1 : c < 1) :
    (ValuationResult.mk spv dist).pvat_risk c =
      some (specBasePV (ValuationResult.mk spv dist) - npQuantile dist (1 - c)) := by
  have hguard : ¬ ¬ (0 < c ∧ c < 1) := not_not_intro ⟨h0, h1⟩
  have hempty : dist.isEmpty = false := by
    cases dist with
    | nil => exact absurd rfl hne
    | cons a l => rfl
  unfold ValuationResult.pvat_risk ValuationResult.basePV specBasePV
  cases hlk : lookupLast spv "parallel_shift_+0bps" with
  | some v0 => simp [hguard, hempty, hlk]
  | none => simp [hguard, hempty, hlk]

/-- Witness for `C5_pvat_risk_formula` at the result
`{scenario_pv = [("parallel_shift_+0bps", 5)], distribution = [3, 5]}`
and confidence `3/4`. -/
theorem C5_witness :
    (ValuationResult.mk [("parallel_shift_+0bps", 5)] [3, 5]).pvat_risk (3/4) =
      some (specBasePV (ValuationResult.mk [("parallel_shift_+0bps", 5)] [3, 5]) -
        npQuantile [3, 5] (1 - 3/4)) :=
  C5_pvat_risk_formula [("parallel_shift_+0bps", 5)] [3, 5] (3/4)
    (by simp) (by norm_num) (by norm_num)

/-! Dict lemmas for `upsert`/`lookupLast`. -/

lemma lookupLast_cons {α : Type} [DecidableEq α] {β : Type} (p : α × β)
    (rest : List (α × β)) (k : α) :
    lookupLast (p :: rest) k =
      (match lookupLast rest k with
       | some v => some v
       | none => if p.1 = k then some p.2 else none) := rfl

lemma lookupLast_eq_none {α : Type} [DecidableEq α] {β : Type}
    (l : List (α × β)) (k : α) (h : ∀ p ∈ l, p.1 ≠ k) : lookupLast l k = none := by
  induction l with
  | nil => rfl
  | cons p rest ih =>
    rw [lookupLast_cons, ih (fun q hq => h q (List.mem_cons_of_mem _ hq))]
    simp [h p (List.mem_cons_self _ _)]

lemma lookupLast_append_single {α : Type} [DecidableEq α] {β : Type}
    (l : List (α × β)) (k : α) (v : β) (k' : α) :
    lookupLast (l ++ [(k, v)]) k' = if k' = k then some v else lookupLast l k' := by
  induction l with
  | nil =>
    by_cases h : k' = k
    · subst h; simp [lookupLast]
    · have h2 : ¬ (k = k') := fun hh => h hh.symm
      simp [lookupLast, h, h2]
  | cons p rest ih =>
    rw [List.cons_append, lookupLast_cons, ih, lookupLast_cons]
    by_cases h : k' = k
    · simp [h]
    · simp only [h, if_false]

lemma lookupLast_map_replace_eq {α : Type} [DecidableEq α] {β : Type}
    (l : List (α × β)) (k : α) (v : β) (h : l.any (fun p => p.1 = k) = true) :
    lookupLast (l.map (fun p => if p.1 = k then (k, v) else p)) k = some v := by
  induction l with
  | nil => simp at h
  | cons p rest ih =>
    simp only [List.any_cons, Bool.or_eq_true] at h
    rw [List.map_cons, lookupLast_cons]
    by_cases hrest : rest.any (fun p => p.1 = k) = true
    · rw [ih hrest]
    · have hk : p.1 = k := by
        rcases h with h | h
        · exact of_decide_eq_true h
        · exact absurd h hrest
      have hnokey : ∀ q ∈ rest.map (fun p => if p.1 = k then (k, v) else p), q.1 ≠ k := by
        intro q hq
        obtain ⟨q0, hq0, rfl⟩ := List.mem_map.mp hq
        have hq0k : q0.1 ≠ k := by
          intro hh
          exact hrest (List.any_eq_true.mpr ⟨q0, hq0, by simp [hh]⟩)
        simp [hq0k]
      rw [lookupLast_eq_none _ _ hnokey]
      simp [hk]

lemma lookupLast_map_replace_ne {α : Type} [DecidableEq α] {β : Type}
    (l : List (α × β)) (k : α) (v : β) (k' : α) (h : k' ≠ k) :
    lookupLast (l.map (fun p => if p.1 = k then (k, v) else p)) k' = lookupLast l k' := by
  induction l with
  | nil => rfl
  | cons p rest ih =>
    rw [List.map_cons, lookupLast_cons, ih, lookupLast_cons]
    cases lookupLast rest k' with
    | some w => rfl
    | none =>
      by_cases hp : p.1 = k
      · have h1 : ¬ (k = k') := fun hh => h hh.symm
        have h2 : ¬ (p.1 = k') := by rw [hp]; exact h1
        simp [hp, h1, h2]
      · simp [hp]

lemma lookupLast_upsert {α : Type} [DecidableEq α] {β : Type}
    (l : List (α × β)) (k : α) (v : β) (k' : α) :
    lookupLast (upsert l k v) k' = if k' = k then some v else lookupLast l k' := by
  unfold upsert
  by_cases hany : l.any (fun p => p.1 = k) = true
  · rw [if_pos hany]
    by_cases h : k' = k
    · rw [h, lookupLast_map_replace_eq l k v hany]
      simp
    · rw [lookupLast_map_replace_ne l k v k' h]
      simp [h]
  · rw [if_neg hany]
    exact lookupLast_append_single l k v k'

lemma upsert_of_fresh {α : Type} [DecidableEq α] {β : Type}
    (l : List (α × β)) (k : α) (v : β) (h : ¬ (l.any (fun p => p.1 = k) = true)) :
    upsert l k v = l ++ [(k, v)] := by
  unfold upsert
  rw [if_neg h]

/-! ## Valuation engine (`src/engine/valuation.py`, `ValuationEngine`) -/

/-- Decimal digit characters of `n`, most significant digit first
(`"0"` for zero), as rendered by Python's `d` format. -/
def natDecimalChars (n : ℕ) : List Char :=
  if n = 0 then ['0'] else ((Nat.digits 10 n).map Nat.digitChar).reverse

/-- Python's `"{:03d}"` format: decimal digits left-padded with `'0'` to
width 3. -/
def pad3 (n : ℕ) : String :=
  ⟨List.replicate (3 - (natDecimalChars n).length) '0' ++ natDecimalChars n⟩

/-- The per-product contribution label `"{idx:03d}_{ClassName}"` of
`ValuationEngine.value_with_contributions`. -/
def contribLabel (idx : ℕ) (cls : String) : String :=
  pad3 idx ++ "_" ++ cls

lemma digitChar_lt_ten_inj {a b : ℕ} (ha : a < 10) (hb : b < 10)
    (h : Nat.digitChar a = Nat.digitChar b) : a = b := by
  interval_cases a <;> interval_cases b <;> revert h <;> decide

lemma digitChar_ne_underscore {d : ℕ} (hd : d < 10) : Nat.digitChar d ≠ '_' := by
  interval_cases d <;> decide

lemma digitChar_ne_zero_char {d : ℕ} (hd : d < 10) (hd0 : d ≠ 0) :
    Nat.digitChar d ≠ '0' := by
  interval_cases d <;> first | exact absurd rfl hd0 | decide

lemma natDecimalChars_ne_nil (n : ℕ) : natDecimalChars n ≠ [] := by
  unfold natDecimalChars
  by_cases h : n = 0
  · simp [h]
  · simp only [h, if_false]
    simp [Nat.digits_ne_nil_iff_ne_zero.mpr h]

lemma natDecimalChars_no_underscore (n : ℕ) : '_' ∉ natDecimalChars n := by
  unfold natDecimalChars
  by_cases h : n = 0
  · simp [h]
  · simp only [h, if_false, List.mem_reverse]
    intro hmem
    obtain ⟨d, hd, hdc⟩ := List.mem_map.mp hmem
    exact digitChar_ne_underscore (Nat.digits_lt_base (by norm_num) hd) hdc

lemma map_digitChar_inj : ∀ (l1 l2 : List ℕ), (∀ d ∈ l1, d < 10) → (∀ d ∈ l2, d < 10) →
    l1.map Nat.digitChar = l2.map Nat.digitChar → l1 = l2 := by
  intro l1
  induction l1 with
  | nil => intro l2 _ _ h; cases l2 with
    | nil => rfl
    | cons b t => simp at h
  | cons a t1 ih =>
    intro l2 h1 h2 h
    cases l2 with
    | nil => simp at h
    | cons b t2 =>
      simp only [List.map_cons, List.cons.injEq] at h
      have hab : a = b := digitChar_lt_ten_inj (h1 a (by simp)) (h2 b (by simp)) h.1
      have ht : t1 = t2 := ih t2 (fun d hd => h1 d (by simp [hd]))
        (fun d hd => h2 d (by simp [hd])) h.2
      rw [hab, ht]

lemma natDecimalChars_inj {i j : ℕ} (h : natDecimalChars i = natDecimalChars j) : i = j := by
  by_cases hi : i = 0 <;> by_cases hj : j = 0
  · rw [hi, hj]
  · exfalso
    unfold natDecimalChars at h
    simp only [hi, hj, if_true, if_false] at h
    -- ['0'] equals the reversed digit characters of a non-zero j
    have hrev : (Nat.digits 10 j).map Nat.digitChar = ['0'] := by
      have := congrArg List.reverse h
      simpa using this.symm
    have hdig : Nat.digits 10 j = [0] := by
      apply map_digitChar_inj _ [0] (fun d hd => Nat.digits_lt_base (by norm_num) hd)
        (by intro d hd; simp at hd; omega)
      simpa using hrev
    have := Nat.ofDigits_digits 10 j
    rw [hdig] at this
    simp [Nat.ofDigits] at this
    exact hj this.symm
  · exfalso
    unfold natDecimalChars at h
    simp only [hi, hj, if_true, if_false] at h
    have hrev : (Nat.digits 10 i).map Nat.digitChar = ['0'] := by
      have := congrArg List.reverse h
      simpa using this
    have hdig : Nat.digits 10 i = [0] := by
      apply map_digitChar_inj _ [0] (fun d hd => Nat.digits_lt_base (by norm_num) hd)
        (by intro d hd; simp at hd; omega)
      simpa using hrev
    have := Nat.ofDigits_digits 10 i
    rw [hdig] at this
    simp [Nat.ofDigits] at this
    exact hi this.symm
  · unfold natDecimalChars at h
    simp only [hi, hj, if_false] at h
    have hmap : (Nat.digits 10 i).map Nat.digitChar = (Nat.digits 10 j).map Nat.digitChar := by
      have := congrArg List.reverse h
      simpa using this
    have hdig : Nat.digits 10 i = Nat.digits 10 j :=
      map_digitChar_inj _ _ (fun d hd => Nat.digits_lt_base (by norm_num) hd)
        (fun d hd => Nat.digits_lt_base (by norm_num) hd) hmap
    have h1 := Nat.ofDigits_digits 10 i
    have h2 := Nat.ofDigits_digits 10 j
    rw [hdig] at h1
    rw [h2] at h1
    exact h1.symm

lemma dropWhile_replicate_zero_append (k : ℕ) (l : List Char) :
    List.dropWhile (fun c => c = '0') (List.replicate k '0' ++ l) =
      List.dropWhile (fun c => c = '0') l := by
  induction k with
  | zero => simp
  | succ m ih =>
    rw [List.replicate_succ, List.cons_append]
    exact ih

lemma dropWhile_natDecimalChars (n : ℕ) (hn : n ≠ 0) :
    List.dropWhile (fun c => c = '0') (natDecimalChars n) = natDecimalChars n := by
  have hdig : Nat.digits 10 n ≠ [] := Nat.digits_ne_nil_iff_ne_zero.mpr hn
  rcases List.eq_nil_or_concat (Nat.digits 10 n) with hcase | ⟨ds, d, hcase⟩
  · exact absurd hcase hdig
  · have hconcat : Nat.digits 10 n = ds ++ [d] := by
      rw [hcase, List.concat_eq_append]
    have hform : natDecimalChars n = Nat.digitChar d :: (ds.map Nat.digitChar).reverse := by
      unfold natDecimalChars
      simp only [hn, if_false]
      rw [hconcat]
      simp
    have hd_ne : d ≠ 0 := by
      have hlast := Nat.getLast_digit_ne_zero 10 hn
      have h4 : (Nat.digits 10 n).getLast? = some d := by
        rw [hconcat]; simp
      have h5 : (Nat.digits 10 n).getLast? = some ((Nat.digits 10 n).getLast hdig) :=
        List.getLast?_eq_getLast _ hdig
      have h6 : (Nat.digits 10 n).getLast hdig = d := by
        rw [h5] at h4
        exact Option.some_inj.mp h4
      rwa [h6] at hlast
    have hd_lt : d < 10 := by
      apply Nat.digits_lt_base (by norm_num)
      rw [hconcat]
      simp
    have hc0 : ¬ (Nat.digitChar d = '0') := digitChar_ne_zero_char hd_lt hd_ne
    rw [hform]
    simp [List.dropWhile, hc0]

lemma pad3_data_inj {i j : ℕ}
    (h : (List.replicate (3 - (natDecimalChars i).length) '0' ++ natDecimalChars i) =
         (List.replicate (3 - (natDecimalChars j).length) '0' ++ natDecimalChars j)) :
    i = j := by
  have hdrop := congrArg (List.dropWhile (fun c => c = '0')) h
  rw [dropWhile_replicate_zero_append, dropWhile_replicate_zero_append] at hdrop
  by_cases hi : i = 0 <;> by_cases hj : j = 0
  · rw [hi, hj]
  · exfalso
    rw [dropWhile_natDecimalChars j hj] at hdrop
    have : natDecimalChars i = ['0'] := by simp [natDecimalChars, hi]
    rw [this] at hdrop
    simp [List.dropWhile] at hdrop
    exact natDecimalChars_ne_nil j hdrop
  · exfalso
    rw [dropWhile_natDecimalChars i hi] at hdrop
    have : natDecimalChars j = ['0'] := by simp [natDecimalChars, hj]
    rw [this] at hdrop
    simp [List.dropWhile] at hdrop
    exact natDecimalChars_ne_nil i hdrop
  · rw [dropWhile_natDecimalChars i hi, dropWhile_natDecimalChars j hj] at hdrop
    exact natDecimalChars_inj hdrop

lemma append_underscore_inj : ∀ (a b u v : List Char), '_' ∉ a → '_' ∉ b →
    a ++ '_' :: u = b ++ '_' :: v → a = b := by
  intro a
  induction a with
  | nil =>
    intro b u v _ hb h
    cases b with
    | nil => rfl
    | cons c b' =>
      exfalso
      simp only [List.nil_append, List.cons_append, List.cons.injEq] at h
      exact hb (by rw [← h.1]; simp)
  | cons c a' ih =>
    intro b u v ha hb h
    cases b with
    | nil =>
      exfalso
      simp only [List.cons_append, List.nil_append, List.cons.injEq] at h
      exact ha (by rw [h.1]; simp)
    | cons c' b' =>
      simp only [List.cons_append, List.cons.injEq] at h
      have := ih b' u v (fun hm => ha (by simp [hm])) (fun hm => hb (by simp [hm])) h.2
      rw [h.1, this]

lemma pad3_no_underscore (n : ℕ) : '_' ∉ (pad3 n).data := by
  unfold pad3
  intro hm
  rcases List.mem_append.mp hm with hm | hm
  · have := List.eq_of_mem_replicate hm
    simp at this
  · exact natDecimalChars_no_underscore n hm

lemma contribLabel_data (idx : ℕ) (cls : String) :
    (contribLabel idx cls).data = (pad3 idx).data ++ '_' :: cls.data := by
  unfold contribLabel
  show ((pad3 idx ++ "_") ++ cls).data = _
  rw [String.data_append, String.data_append]
  simp

lemma contribLabel_idx_inj {i j : ℕ} {ci cj : String}
    (h : contribLabel i ci = contribLabel j cj) : i = j := by
  have hdata := congrArg String.data h
  rw [contribLabel_data, contribLabel_data] at hdata
  have hpad : (pad3 i).data = (pad3 j).data :=
    append_underscore_inj _ _ _ _ (pad3_no_underscore i) (pad3_no_underscore j) hdata
  exact pad3_data_inj (by simpa [pad3] using hpad)

/-- A value stored in a scenario's data dict: a model/curve object
(`obj`) or a string such as the scenario name (`str`).  This mirrors the
heterogeneous `dict[str, Any]` scenario bag of the source. -/
inductive PyVal (M : Type) where
  | obj (m : M)
  | str (s : String)
deriving DecidableEq

/-- `Scenario` (`src/engine/scenario.py`): name, primary discount model,
auxiliary keyed data. -/
structure Scenario (M : Type) where
  name : String
  model : M
  data : List (String × PyVal M)

/-- The per-scenario dict built identically by `ValuationEngine.value`,
`ValuationEngine.value_with_contributions` and
`CSADiscountingEngine.value`:
`data = {"model": scenario.model, "name": scenario.name}` followed by
`data.update(scenario.data)`. -/
def scenarioData {M : Type} (s : Scenario M) : List (String × PyVal M) :=
  s.data.foldl (fun acc kv => upsert acc kv.1 kv.2)
    [("model", PyVal.obj s.model), ("name", PyVal.str s.name)]

/-- A product as the valuation engine sees it: a class name (used for
contribution labels) and a pure present-value function of the scenario
dict.  Instrument-specific pricing is behind this interface. -/
structure EngineProduct (M : Type) where
  className : String
  present_value : List (String × PyVal M) → ℚ

/-- `ValuationEngine`: values product collections under scenario sets. -/
structure ValuationEngine (M : Type) where
  products : List (EngineProduct M)

/-- One step of the per-product loop of `value_with_contributions`:
`per_product[label] = pv; total += pv`. -/
def contribStep {M : Type} (data : List (String × PyVal M))
    (acc : List (String × ℚ) × ℚ) (ip : ℕ × EngineProduct M) : List (String × ℚ) × ℚ :=
  (upsert acc.1 (contribLabel ip.1 ip.2.className) (ip.2.present_value data),
   acc.2 + ip.2.present_value data)

/-- The per-product contribution dict and accumulated total for one
scenario dict. -/
def perProductContributions {M : Type} (e : ValuationEngine M)
    (data : List (String × PyVal M)) : List (String × ℚ) × ℚ :=
  e.products.enum.foldl (contribStep data) ([], 0)

/-- `ValuationEngine.value_with_contributions`: per-scenario totals plus
the per-product contribution dicts keyed `"{idx:03d}_{ClassName}"`. -/
def ValuationEngine.value_with_contributions {M : Type} (e : ValuationEngine M)
    (scenarios : List (Scenario M)) :
    ValuationResult × List (String × List (String × ℚ)) :=
  scenarios.foldl
    (fun acc s =>
      let pp := perProductContributions e (scenarioData s)
      (⟨upsert acc.1.scenario_pv s.name pp.2,
        acc.1.portfolio_pv_distribution ++ [pp.2]⟩,
       upsert acc.2 s.name pp.1))
    (⟨[], []⟩, [])

/-- `ValuationEngine.value`: per-scenario portfolio PV map and PV array. -/
def ValuationEngine.value {M : Type} (e : ValuationEngine M)
    (scenarios : List (Scenario M)) : ValuationResult :=
  scenarios.foldl
    (fun acc s =>
      let total := (e.products.map (fun p => p.present_value (scenarioData s))).sum
      ⟨upsert acc.scenario_pv s.name total,
       acc.portfolio_pv_distribution ++ [total]⟩)
    ⟨[], []⟩

/-! `enumFrom` index lemmas for the contribution fold. -/

lemma enumFrom_fst_ge {α : Type} : ∀ (l : List α) (k : ℕ) (p : ℕ × α),
    p ∈ l.enumFrom k → k ≤ p.1 := by
  intro l
  induction l with
  | nil => intro k p hp; simp [List.enumFrom] at hp
  | cons x xs ih =>
    intro k p hp
    simp only [List.enumFrom, List.mem_cons] at hp
    rcases hp with rfl | hp
    · exact le_refl _
    · exact le_trans (Nat.le_succ k) (ih (k + 1) p hp)

lemma enumFrom_pairwise_ne {α : Type} : ∀ (l : List α) (k : ℕ),
    (l.enumFrom k).Pairwise (fun a b => a.1 ≠ b.1) := by
  intro l
  induction l with
  | nil => intro k; simp [List.enumFrom]
  | cons x xs ih =>
    intro k
    simp only [List.enumFrom]
    refine List.Pairwise.cons ?_ (ih (k + 1))
    intro p hp
    have := enumFrom_fst_ge xs (k + 1) p hp
    omega

lemma contribFold_spec {M : Type} (data : List (String × PyVal M)) :
    ∀ (l : List (ℕ × EngineProduct M)) (acc : List (String × ℚ) × ℚ),
      (∀ p ∈ acc.1, ∀ ip ∈ l, p.1 ≠ contribLabel ip.1 ip.2.className) →
      l.Pairwise (fun a b => a.1 ≠ b.1) →
      (l.foldl (contribStep data) acc).1 =
        acc.1 ++ l.map (fun ip => (contribLabel ip.1 ip.2.className, ip.2.present_value data)) ∧
      (l.foldl (contribStep data) acc).2 =
        acc.2 + (l.map (fun ip => ip.2.present_value data)).sum := by
  intro l
  induction l with
  | nil => intro acc _ _; simp
  | cons ip l' ih =>
    intro acc hdisj hnodup
    have hfresh : ¬ (acc.1.any
        (fun p => p.1 = contribLabel ip.1 ip.2.className) = true) := by
      intro hany
      obtain ⟨p, hp, hpk⟩ := List.any_eq_true.mp hany
      exact hdisj p hp ip (by simp) (of_decide_eq_true hpk)
    have hstep : contribStep data acc ip =
        (acc.1 ++ [(contribLabel ip.1 ip.2.className, ip.2.present_value data)],
         acc.2 + ip.2.present_value data) := by
      unfold contribStep
      rw [upsert_of_fresh _ _ _ hfresh]
    rw [List.foldl_cons, hstep]
    have hdisj' : ∀ p ∈ acc.1 ++ [(contribLabel ip.1 ip.2.className, ip.2.present_value data)],
        ∀ jp ∈ l', p.1 ≠ contribLabel jp.1 jp.2.className := by
      intro p hp jp hjp
      rcases List.mem_append.mp hp with hp | hp
      · exact hdisj p hp jp (by simp [hjp])
      · simp only [List.mem_singleton] at hp
        subst hp
        intro hlbl
        have hidx : ip.1 = jp.1 := contribLabel_idx_inj hlbl
        exact (List.pairwise_cons.mp hnodup).1 jp hjp hidx
    have := ih (acc.1 ++ [(contribLabel ip.1 ip.2.className, ip.2.present_value data)],
        acc.2 + ip.2.present_value data) hdisj' (List.pairwise_cons.mp hnodup).2
    refine ⟨?_, ?_⟩
    · rw [this.1]
      simp
    · rw [this.2]
      simp only [List.map_cons, List.sum_cons]
      ring

/-- C1: in `value_with_contributions`, for every scenario-name entry the
per-product contributions (keyed `"{idx:03d}_{ClassName}"`, in
product-index order) sum to exactly the total recorded for that name in
`scenario_pv` — the same accumulation `total += pv` the code performs. -/
theorem C1_contributions_sum_to_total (M : Type) (e : ValuationEngine M)
    (scenarios : List (Scenario M)) (name : String)
    (pp : List (String × ℚ)) (total : ℚ)
    (hc : lookupLast (e.value_with_contributions scenarios).2 name = some pp)
    (ht : lookupLast (e.value_with_contributions scenarios).1.scenario_pv name = some total) :
    (pp.map Prod.snd).sum = total := by
  unfold ValuationEngine.value_with_contributions at hc ht
  -- generalised invariant over the scenario fold
  suffices h : ∀ (l : List (Scenario M))
      (acc : ValuationResult × List (String × List (String × ℚ))),
      (∀ nm qp tl, lookupLast acc.2 nm = some qp →
        lookupLast acc.1.scenario_pv nm = some tl → (qp.map Prod.snd).sum = tl) →
      (∀ nm qp tl,
        lookupLast (l.foldl (fun acc s =>
          let pp := perProductContributions e (scenarioData s)
          ((⟨upsert acc.1.scenario_pv s.name pp.2,
            acc.1.portfolio_pv_distribution ++ [pp.2]⟩ : ValuationResult),
           upsert acc.2 s.name pp.1)) acc).2 nm = some qp →
        lookupLast (l.foldl (fun acc s =>
          let pp := perProductContributions e (scenarioData s)
          ((⟨upsert acc.1.scenario_pv s.name pp.2,
            acc.1.portfolio_pv_distribution ++ [pp.2]⟩ : ValuationResult),
           upsert acc.2 s.name pp.1)) acc).1.scenario_pv nm = some tl →
        (qp.map Prod.snd).sum = tl) by
    exact h scenarios (⟨[], []⟩, []) (by intro nm qp tl h1 _; simp [lookupLast] at h1) name pp total hc ht
  intro l
  induction l with
  | nil => intro acc hinv; exact hinv
  | cons s l' ih =>
    intro acc hinv
    apply ih
    intro nm qp tl h1 h2
    rw [lookupLast_upsert] at h1 h2
    by_cases hnm : nm = s.name
    · rw [if_pos hnm] at h1 h2
      have h1' : (perProductContributions e (scenarioData s)).1 = qp := by
        simpa using h1
      have h2' : (perProductContributions e (scenarioData s)).2 = tl := by
        simpa using h2
      subst h1'
      subst h2'
      have hspec := contribFold_spec (scenarioData s) e.products.enum ([], 0)
        (by intro p hp; simp at hp)
        (enumFrom_pairwise_ne e.products 0)
      unfold perProductContributions
      rw [hspec.1, hspec.2, List.nil_append, List.map_map]
      simp only [Function.comp_def]
      simp
    · rw [if_neg hnm] at h1 h2
      exact hinv nm qp tl h1 h2

/-- Witness for `C1_contributions_sum_to_total`: a two-product engine on
one scenario; the looked-up contributions `[("000_A", 1), ("001_B", 2)]`
sum to the looked-up scenario total `3`. -/
theorem C1_witness :
    (([("000_A", (1:ℚ)), ("001_B", 2)].map Prod.snd).sum = (3:ℚ)) :=
  C1_contributions_sum_to_total Bool
    ⟨[⟨"A", fun _ => 1⟩, ⟨"B", fun _ => 2⟩]⟩ [⟨"s", false, []⟩] "s"
    [("000_A", (1:ℚ)), ("001_B", 2)] 3
    (by
      norm_num [ValuationEngine.value_with_contributions, perProductContributions,
        contribStep, scenarioData, upsert, contribLabel, pad3, natDecimalChars,
        lookupLast, List.enum, List.enumFrom]
      decide)
    (by
      norm_num [ValuationEngine.value_with_contributions, perProductContributions,
        contribStep, scenarioData, upsert, contribLabel, pad3, natDecimalChars,
        lookupLast, List.enum, List.enumFrom]
      try decide)

/-! ## CSA discounting engine (`src/engine/collateral.py`) -/

/-- `CSAConfig`: a netting set's discount model and collateral terms. -/
structure CSAConfig (M : Type) where
  netting_set_id : String
  discount_model : M
  collateral_rate : ℚ := 0
  threshold : ℚ := 0
  minimum_transfer_amount : ℚ := 0

/-- `CSAScenarioResult`: unsecured/secured totals and per-netting-set
secured totals for one scenario. -/
structure CSAScenarioResult where
  unsecured_pv : ℚ
  secured_pv : ℚ
  netting_set_secured_pv : List (String × ℚ)

/-- One product iteration of `CSADiscountingEngine.value`: unsecured PV on
the base data, secured PV on the base data with `"model"` replaced by the
netting set's discount model when the product is mapped to a configured
netting set. -/
def csaProductStep {M : Type} (base_data : List (String × PyVal M))
    (product_to_netting_set : List (ℕ × String))
    (csa_configs : List (String × CSAConfig M))
    (acc : ℚ × ℚ × List (String × ℚ)) (ip : ℕ × EngineProduct M) :
    ℚ × ℚ × List (String × ℚ) :=
  let unsecured := ip.2.present_value base_data
  match lookupLast product_to_netting_set ip.1 with
  | none => (acc.1 + unsecured, acc.2.1 + unsecured, acc.2.2)
  | some ns_id =>
    match lookupLast csa_configs ns_id with
    | none => (acc.1 + unsecured, acc.2.1 + unsecured, acc.2.2)
    | some cfg =>
      let secured := ip.2.present_value
        (upsert base_data "model" (PyVal.obj cfg.discount_model))
      (acc.1 + unsecured, acc.2.1 + secured,
       upsert acc.2.2 ns_id ((lookupLast acc.2.2 ns_id).getD 0 + secured))

/-- `CSADiscountingEngine.value`: per-scenario unsecured/secured valuation
with per-netting-set secured totals; the base data dict is built exactly
as in `ValuationEngine.value` (`scenarioData`). -/
def CSADiscountingEngine.value {M : Type} (products : List (EngineProduct M))
    (scenarios : List (Scenario M))
    (product_to_netting_set : List (ℕ × String))
    (csa_configs : List (String × CSAConfig M)) : List (String × CSAScenarioResult) :=
  scenarios.foldl
    (fun res s =>
      let acc := products.enum.foldl
        (csaProductStep (scenarioData s) product_to_netting_set csa_configs)
        (0, 0, csa_configs.map (fun c => (c.1, 0)))
      upsert res s.name ⟨acc.1, acc.2.1, acc.2.2⟩)
    []

lemma lookupLast_foldl_upsert {α : Type} [DecidableEq α] {β : Type} :
    ∀ (l : List (α × β)) (base : List (α × β)) (k : α),
      lookupLast (l.foldl (fun acc kv => upsert acc kv.1 kv.2) base) k =
        (match lookupLast l k with
         | some v => some v
         | none => lookupLast base k) := by
  intro l
  induction l with
  | nil => intro base k; rfl
  | cons p rest ih =>
    intro base k
    rw [List.foldl_cons, ih (upsert base p.1 p.2) k, lookupLast_cons]
    cases hr : lookupLast rest k with
    | some v => rfl
    | none =>
      rw [lookupLast_upsert]
      by_cases h : p.1 = k
      · subst h
        simp
      · have h' : ¬ (k = p.1) := fun hh => h hh.symm
        simp [h, h']

/-- C10: in `ValuationEngine.value` / `value_with_contributions` and
`CSADiscountingEngine.value` the scenario's auxiliary `data` dict is
merged after the `{"model": ..., "name": ...}` entries, so a `"model"`
(or `"name"`) key inside `Scenario.data` silently replaces the declared
primary model (resp. name) in the dict every product is priced on; absent
such keys the declared entries survive.  The last two conjuncts exhibit
that both engines price products on exactly this merged dict. -/
theorem C10_data_update_overrides_model :
    ∀ (M : Type) (s : Scenario M),
      (∀ v, lookupLast s.data "model" = some v →
        lookupLast (scenarioData s) "model" = some v) ∧
      (∀ v, lookupLast s.data "name" = some v →
        lookupLast (scenarioData s) "name" = some v) ∧
      (lookupLast s.data "model" = none →
        lookupLast (scenarioData s) "model" = some (PyVal.obj s.model)) ∧
      (lookupLast s.data "name" = none →
        lookupLast (scenarioData s) "name" = some (PyVal.str s.name)) ∧
      (∀ p : EngineProduct M,
        (ValuationEngine.value ⟨[p]⟩ [s]).scenario_pv =
          [(s.name, p.present_value (scenarioData s))]) ∧
      (∀ p : EngineProduct M,
        CSADiscountingEngine.value [p] [s] [] [] =
          [(s.name, ⟨p.present_value (scenarioData s),
                     p.present_value (scenarioData s), []⟩)]) := by
  intro M s
  refine ⟨?_, ?_, ?_, ?_, ?_, ?_⟩
  · intro v hv
    unfold scenarioData
    rw [lookupLast_foldl_upsert, hv]
  · intro v hv
    unfold scenarioData
    rw [lookupLast_foldl_upsert, hv]
  · intro hv
    unfold scenarioData
    rw [lookupLast_foldl_upsert, hv]
    rfl
  · intro hv
    unfold scenarioData
    rw [lookupLast_foldl_upsert, hv]
    rfl
  · intro p
    simp [ValuationEngine.value, upsert]
  · intro p
    unfold CSADiscountingEngine.value
    rw [List.foldl_cons, List.foldl_nil]
    have henum : ([p] : List (EngineProduct M)).enum = [(0, p)] := rfl
    rw [henum, List.foldl_cons, List.foldl_nil]
    have hstep : csaProductStep (scenarioData s) [] []
        (0, 0, ([] : List (String × CSAConfig M)).map (fun c => (c.1, 0))) (0, p) =
        (p.present_value (scenarioData s), p.present_value (scenarioData s), []) := by
      simp [csaProductStep, lookupLast]
    rw [hstep]
    simp [upsert]

/-- Witness for `C10_data_update_overrides_model`: a scenario whose data
dict carries `("model", obj 7)`; the merged dict's `"model"` entry is the
data dict's `obj 7`, not the declared primary model `1`. -/
theorem C10_witness :
    lookupLast (scenarioData (Scenario.mk "base" (1:ℕ) [("model", PyVal.obj 7)])) "model" =
      some (PyVal.obj 7) :=
  ((C10_data_update_overrides_model ℕ
    (Scenario.mk "base" (1:ℕ) [("model", PyVal.obj 7)])).1) (PyVal.obj 7) (by rfl)

/-! ## Product layer (`build/lib/products/...`, `src/products/...`) -/

/-- The `InterestRateModel` capability as the product pricers consume it
(`models/base.py`): a discount-factor curve (raising, hence `Option`) and
a short rate.  `forward_rate` is the derived simple forward of the base
class. -/
structure RateModel where
  discount_factor : ℚ → Option ℝ
  short_rate : ℚ → Option ℝ

/-- `InterestRateModel.forward_rate`: raises if `t0 < 0` or `t1 <= t0`,
or if either discount factor is non-positive. -/
noncomputable def RateModel.forward_rate (m : RateModel) (t0 t1 : ℚ) : Option ℝ :=
  if t0 < 0 ∨ t1 ≤ t0 then none
  else
    match m.discount_factor t0, m.discount_factor t1 with
    | some df0, some df1 =>
      if df1 ≤ 0 ∨ df0 ≤ 0 then none
      else some ((df0 / df1 - 1) / ((t1 : ℝ) - (t0 : ℝ)))
    | _, _ => none

/-- A `DeterministicZeroCurve` used as a scenario's rate model. -/
noncomputable def RateModel.ofCurve (c : DeterministicZeroCurve) : RateModel :=
  ⟨c.discount_factor, fun t => (c.short_rate t).map (fun r => (r : ℝ))⟩

/-- `DeterministicFXCurve` (`models/market.py`): FX forward curve quoted
domestic per unit foreign, same tenor interpolation as the zero curve. -/
structure DeterministicFXCurve where
  tenors : List ℚ
  fx_forwards : List ℚ

/-- `DeterministicFXCurve.fx_forward`: flat extrapolation outside the
tenor range, linear interpolation inside. -/
def DeterministicFXCurve.fx_forward (c : DeterministicFXCurve) (t : ℚ) : ℚ :=
  if t ≤ 0 then c.fx_forwards.headD 0
  else if t ≤ c.tenors.headD 0 then c.fx_forwards.headD 0
  else if lastD c.tenors ≤ t then lastD c.fx_forwards
  else npInterpSeg c.tenors c.fx_forwards t

/-- `Cashflow` (`products/base.py`): immutable (time, amount) pair. -/
structure Cashflow where
  time : ℚ
  amount : ℝ

/-- The scenario dict as the FX/CCS pricers read it: the primary model,
the foreign model and the FX curve (the keys `"model"`,
`"foreign_model"`, `"fx_curve"`; the isinstance checks of the source
hold by construction here). -/
structure DerivScenario where
  model : RateModel
  foreign_model : RateModel
  fx_curve : DeterministicFXCurve

/-- `sum(cf.amount * model.discount_factor(cf.time) for cf in cfs)`:
fails on the first cashflow whose discounting fails. -/
noncomputable def pvSum (m : RateModel) (cfs : List Cashflow) : Option ℝ :=
  cfs.foldlM (fun acc cf => (m.discount_factor cf.time).map (fun df => acc + cf.amount * df)) 0

/-- Negate a cashflow's amount. -/
noncomputable def negCf (cf : Cashflow) : Cashflow := ⟨cf.time, -cf.amount⟩

lemma pvSum_neg_aux (m : RateModel) :
    ∀ (cfs : List Cashflow) (acc : ℝ),
      (cfs.map negCf).foldlM
          (fun acc cf => (m.discount_factor cf.time).map (fun df => acc + cf.amount * df))
          (-acc) =
        Option.map (fun x => -x)
          (cfs.foldlM
            (fun acc cf => (m.discount_factor cf.time).map (fun df => acc + cf.amount * df))
            acc) := by
  intro cfs
  induction cfs with
  | nil => intro acc; rfl
  | cons cf rest ih =>
    intro acc
    simp only [List.map_cons, List.foldlM_cons]
    cases hdf : m.discount_factor cf.time with
    | none => simp [negCf, hdf]
    | some df =>
      simp only [negCf, hdf, Option.map_some']
      have : -acc + -cf.amount * df = -(acc + cf.amount * df) := by ring
      rw [this]
      exact ih (acc + cf.amount * df)

lemma pvSum_map_negCf (m : RateModel) (cfs : List Cashflow) :
    pvSum m (cfs.map negCf) = Option.map (fun x => -x) (pvSum m cfs) := by
  have := pvSum_neg_aux m cfs 0
  simpa [pvSum] using this

/-- Generic `mapM` lemma: if `g` produces the amount-negated cashflow of
`f` pointwise, the produced lists are amount-negated. -/
lemma mapM_negCf {α : Type} (f g : α → Option Cashflow)
    (h : ∀ a, g a = Option.map negCf (f a)) :
    ∀ (l : List α), l.mapM g = Option.map (List.map negCf) (l.mapM f) := by
  intro l
  induction l with
  | nil => rfl
  | cons a rest ih =>
    simp only [List.mapM_cons, h a, ih]
    cases f a with
    | none => rfl
    | some cf =>
      cases rest.mapM f with
      | none => rfl
      | some cfs => rfl

/-- `FXForward` (`products/derivatives.py`): single-period FX forward
valued in domestic currency. -/
structure FXForward where
  notional_foreign : ℚ
  strike : ℚ
  maturity_years : ℚ
  pay_foreign_receive_domestic : Bool := true

/-- `FXForward.get_cashflows`: one payoff cashflow at maturity, signed by
the pay/receive flag. -/
noncomputable def FXForward.get_cashflows (f : FXForward) (s : DerivScenario) : List Cashflow :=
  [⟨f.maturity_years,
    (((if f.pay_foreign_receive_domestic then (1:ℚ) else -1) * f.notional_foreign *
      (s.fx_curve.fx_forward f.maturity_years - f.strike) : ℚ) : ℝ)⟩]

/-- `FXForward.present_value`: discounted payoff under the primary model. -/
noncomputable def FXForward.present_value (f : FXForward) (s : DerivScenario) : Option ℝ :=
  pvSum s.model (f.get_cashflows s)

/-- The same forward with the pay/receive flag flipped. -/
def FXForward.flip (f : FXForward) : FXForward :=
  { f with pay_foreign_receive_domestic := !f.pay_foreign_receive_domestic }

/-- `FXSwap` (`products/derivatives.py`): two-leg FX swap, far rate
implied by covered interest parity when not quoted. -/
structure FXSwap where
  notional_foreign : ℚ
  near_rate : ℚ
  far_rate : Option ℚ
  near_maturity_years : ℚ
  far_maturity_years : ℚ
  pay_foreign_receive_domestic : Bool := true

/-- `FXSwap._implied_far_rate_from_curves`: broken-date covered interest
parity from the near date to the far date. -/
noncomputable def FXSwap.implied_far_rate_from_curves (f : FXSwap) (s : DerivScenario) :
    Option ℝ :=
  if f.far_maturity_years ≤ f.near_maturity_years then none
  else if f.far_maturity_years ≤ 0 then some ((f.near_rate : ℚ) : ℝ)
  else do
    let df_d_near ← s.model.discount_factor f.near_maturity_years
    let df_d_far ← s.model.discount_factor f.far_maturity_years
    let df_f_near ← s.foreign_model.discount_factor f.near_maturity_years
    let df_f_far ← s.foreign_model.discount_factor f.far_maturity_years
    return ((f.near_rate : ℚ) : ℝ) * (df_f_far / max df_f_near (1e-12 : ℝ)) /
      max (df_d_far / max df_d_near (1e-12 : ℝ)) (1e-12 : ℝ)

/-- The far rate of an `FXSwap`: the quoted one when present, else the
curve-implied one (`self.far_rate if ... is not None else self._implied_far_rate_from_curves(...)`). -/
noncomputable def FXSwap.quotedOrImpliedFarRate (f : FXSwap) (s : DerivScenario) : Option ℝ :=
  match f.far_rate with
  | some r => some ((r : ℚ) : ℝ)
  | none => f.implied_far_rate_from_curves s

/-- `FXSwap.leg_cashflows`: near/far leg decomposition
(near leg, far leg, net). -/
noncomputable def FXSwap.leg_cashflows (f : FXSwap) (s : DerivScenario) :
    Option (List Cashflow × List Cashflow × List Cashflow) :=
  if f.far_maturity_years ≤ f.near_maturity_years then none
  else
    (f.quotedOrImpliedFarRate s).map (fun implied_far_rate =>
      let sign : ℚ := if f.pay_foreign_receive_domestic then 1 else -1
      let near_leg : List Cashflow :=
        [⟨f.near_maturity_years, ((sign * f.notional_foreign * f.near_rate : ℚ) : ℝ)⟩]
      let far_leg : List Cashflow :=
        [⟨f.far_maturity_years, ((-sign * f.notional_foreign : ℚ) : ℝ) * implied_far_rate⟩]
      (near_leg, far_leg, near_leg ++ far_leg))

/-- `FXSwap.get_cashflows`: the net leg. -/
noncomputable def FXSwap.get_cashflows (f : FXSwap) (s : DerivScenario) :
    Option (List Cashflow) :=
  (f.leg_cashflows s).map (fun legs => legs.2.2)

/-- `FXSwap.present_value`: discounted net cashflows under the primary
model. -/
noncomputable def FXSwap.present_value (f : FXSwap) (s : DerivScenario) : Option ℝ := do
  let cfs ← f.get_cashflows s
  pvSum s.model cfs

/-- The same FX swap with the pay/receive flag flipped. -/
def FXSwap.flip (f : FXSwap) : FXSwap :=
  { f with pay_foreign_receive_domestic := !f.pay_foreign_receive_domestic }

/-- `CrossCurrencySwap` (`products/derivatives.py`): start/end notional
exchange plus two legs (fixed or forward-implied rate), optional periodic
mark-to-market notional resets on the foreign leg. -/
structure CrossCurrencySwap where
  domestic_notional : ℚ
  foreign_notional : ℚ
  maturity_years : ℚ
  domestic_frequency : ℤ := 2
  foreign_frequency : ℤ := 2
  domestic_fixed_rate : Option ℚ := none
  foreign_fixed_rate : Option ℚ := none
  domestic_spread : ℚ := 0
  foreign_spread : ℚ := 0
  pay_domestic_receive_foreign : Bool := true
  exchange_notionals : Bool := true
  mark_to_market : Bool := false

/-- `CrossCurrencySwap._leg_cashflows`: one leg's coupon cashflows.
`frequency = 0` raises (`ZeroDivisionError` on `dt = 1/frequency`). -/
noncomputable def CrossCurrencySwap.legCashflows (sw : CrossCurrencySwap) (model : RateModel)
    (notional : ℚ) (frequency : ℤ) (fixed_rate : Option ℚ) (spread : ℚ) (sign : ℚ)
    (fx_curve : DeterministicFXCurve) (convert_foreign : Bool) (mark_to_market : Bool) :
    Option (List Cashflow) :=
  if frequency = 0 then none
  else
    let dt : ℚ := 1 / frequency
    let n : ℤ := pyRound (sw.maturity_years * frequency)
    (List.range n.toNat).mapM (fun k =>
      let t0 : ℚ := (k : ℚ) * dt
      let t1 : ℚ := ((k : ℚ) + 1) * dt
      let effective_notional : ℚ :=
        if mark_to_market ∧ convert_foreign then
          sw.domestic_notional / max (fx_curve.fx_forward t0) (1/10^12)
        else notional
      (match fixed_rate with
        | some r => some ((r : ℚ) : ℝ)
        | none => model.forward_rate t0 t1).map (fun rate =>
        let amount : ℝ :=
          ((sign : ℚ) : ℝ) * ((effective_notional : ℚ) : ℝ) * (rate + ((spread : ℚ) : ℝ)) *
            ((dt : ℚ) : ℝ)
        ⟨t1, if convert_foreign then amount * ((fx_curve.fx_forward t1 : ℚ) : ℝ) else amount⟩))

/-- The mark-to-market reset loop of `CrossCurrencySwap.leg_cashflows`:
for each interior foreign-leg date, re-strike the foreign notional at the
current FX forward and pay the notional delta in domestic currency. -/
noncomputable def ccsResetFold (sw : CrossCurrencySwap) (fx_curve : DeterministicFXCurve)
    (sign : ℚ) (dt : ℚ) (idxs : List ℕ) (current0 : ℚ) : List Cashflow × ℚ :=
  idxs.foldl
    (fun (acc : List Cashflow × ℚ) (i : ℕ) =>
      let t : ℚ := (i : ℚ) * dt
      let new_foreign_notional : ℚ :=
        sw.domestic_notional / max (fx_curve.fx_forward t) (1/10^12)
      let delta_foreign : ℚ := new_foreign_notional - acc.2
      (acc.1 ++ [⟨t, ((-sign * delta_foreign * fx_curve.fx_forward t : ℚ) : ℝ)⟩],
       new_foreign_notional))
    ([], current0)

/-- The five cashflow groups of `CrossCurrencySwap.leg_cashflows`. -/
structure CCSLegs where
  notional_exchange_cashflows : List Cashflow
  domestic_leg_cashflows : List Cashflow
  foreign_leg_cashflows : List Cashflow
  reset_exchange_cashflows : List Cashflow
  net_cashflows : List Cashflow

/-- The body of `CrossCurrencySwap.leg_cashflows` for a given sign
(`sign = -1` when paying domestic): notional exchanges, both legs and
mark-to-market resets.  `leg_cashflows` instantiates `sign` from the
pay/receive flag. -/
noncomputable def CrossCurrencySwap.legsWithSign (sw : CrossCurrencySwap)
    (s : DerivScenario) (sign : ℚ) : Option CCSLegs := do
  let current0 : ℚ :=
    if sw.mark_to_market then
      sw.domestic_notional / max (s.fx_curve.fx_forward 0) (1/10^12)
    else sw.foreign_notional
  let start_exchange : List Cashflow :=
    if sw.exchange_notionals then
      [⟨0, ((sign * sw.domestic_notional : ℚ) : ℝ)⟩,
       ⟨0, ((-sign * current0 * s.fx_curve.fx_forward 0 : ℚ) : ℝ)⟩]
    else []
  let domestic_leg ← sw.legCashflows s.model sw.domestic_notional sw.domestic_frequency
    sw.domestic_fixed_rate sw.domestic_spread sign s.fx_curve false false
  let foreign_leg ← sw.legCashflows s.foreign_model current0 sw.foreign_frequency
    sw.foreign_fixed_rate sw.foreign_spread (-sign) s.fx_curve true sw.mark_to_market
  let resets : List Cashflow × ℚ :=
    if sw.mark_to_market ∧ sw.exchange_notionals then
      ccsResetFold sw s.fx_curve sign (1 / sw.foreign_frequency)
        (List.range' 1 ((pyRound (sw.maturity_years * sw.foreign_frequency)).toNat - 1))
        current0
    else ([], current0)
  let end_exchange : List Cashflow :=
    if sw.exchange_notionals then
      [⟨sw.maturity_years, ((-sign * sw.domestic_notional : ℚ) : ℝ)⟩,
       ⟨sw.maturity_years,
        ((sign * resets.2 * s.fx_curve.fx_forward sw.maturity_years : ℚ) : ℝ)⟩]
    else []
  let notional_exchange := start_exchange ++ end_exchange
  return ⟨notional_exchange, domestic_leg, foreign_leg, resets.1,
    notional_exchange ++ domestic_leg ++ foreign_leg ++ resets.1⟩

/-- `CrossCurrencySwap.leg_cashflows`: sign `-1` when paying domestic /
receiving foreign, `+1` otherwise. -/
noncomputable def CrossCurrencySwap.leg_cashflows (sw : CrossCurrencySwap)
    (s : DerivScenario) : Option CCSLegs :=
  sw.legsWithSign s (if sw.pay_domestic_receive_foreign then -1 else 1)

/-- `CrossCurrencySwap.get_cashflows`: the net cashflows. -/
noncomputable def CrossCurrencySwap.get_cashflows (sw : CrossCurrencySwap)
    (s : DerivScenario) : Option (List Cashflow) :=
  (sw.leg_cashflows s).map (fun legs => legs.net_cashflows)

/-- `CrossCurrencySwap.present_value`: net cashflows discounted on the
domestic model. -/
noncomputable def CrossCurrencySwap.present_value (sw : CrossCurrencySwap)
    (s : DerivScenario) : Option ℝ := do
  let cfs ← sw.get_cashflows s
  pvSum s.model cfs

/-- The same swap with the pay/receive flag flipped. -/
def CrossCurrencySwap.flip (sw : CrossCurrencySwap) : CrossCurrencySwap :=
  { sw with pay_domestic_receive_foreign := !sw.pay_domestic_receive_foreign }

/-! C4 lemmas: flipping the pay/receive flag negates every cashflow. -/

lemma flip_sign_q (b : Bool) : (if !b then (1:ℚ) else -1) = -(if b then (1:ℚ) else -1) := by
  cases b <;> norm_num

lemma FXForward_flip_cashflows (f : FXForward) (s : DerivScenario) :
    f.flip.get_cashflows s = (f.get_cashflows s).map negCf := by
  unfold FXForward.get_cashflows FXForward.flip
  simp only [List.map_cons, List.map_nil, negCf]
  rw [flip_sign_q]
  congr 1
  congr 1
  push_cast
  ring

lemma FXForward_flip_pv (f : FXForward) (s : DerivScenario) :
    f.flip.present_value s = Option.map (fun x => -x) (f.present_value s) := by
  unfold FXForward.present_value
  rw [FXForward_flip_cashflows, pvSum_map_negCf]

lemma FXSwap_flip_pv (f : FXSwap) (s : DerivScenario) :
    f.flip.present_value s = Option.map (fun x => -x) (f.present_value s) := by
  have hfliprate : f.flip.quotedOrImpliedFarRate s = f.quotedOrImpliedFarRate s := rfl
  unfold FXSwap.present_value FXSwap.get_cashflows FXSwap.leg_cashflows
  rw [hfliprate]
  by_cases hmat : f.far_maturity_years ≤ f.near_maturity_years
  · simp [FXSwap.flip, hmat]
  · simp only [FXSwap.flip, hmat, if_false]
    cases hfr : f.quotedOrImpliedFarRate s with
    | none => rfl
    | some ifr =>
      simp only [Option.map_some', Option.some_bind]
      have hsign : (if (!f.pay_foreign_receive_domestic) = true then (1:ℚ) else -1) =
          -(if f.pay_foreign_receive_domestic = true then (1:ℚ) else -1) := by
        cases f.pay_foreign_receive_domestic <;> norm_num
      rw [hsign]
      have hnear : Cashflow.mk f.near_maturity_years
          ((-(if f.pay_foreign_receive_domestic = true then (1:ℚ) else -1) *
            f.notional_foreign * f.near_rate : ℚ) : ℝ) =
          negCf (Cashflow.mk f.near_maturity_years
            (((if f.pay_foreign_receive_domestic = true then (1:ℚ) else -1) *
              f.notional_foreign * f.near_rate : ℚ) : ℝ)) := by
        unfold negCf
        congr 1
        push_cast
        ring
      have hfar : Cashflow.mk f.far_maturity_years
          (((-(-(if f.pay_foreign_receive_domestic = true then (1:ℚ) else -1)) *
            f.notional_foreign : ℚ) : ℝ) * ifr) =
          negCf (Cashflow.mk f.far_maturity_years
            (((-(if f.pay_foreign_receive_domestic = true then (1:ℚ) else -1) *
              f.notional_foreign : ℚ) : ℝ) * ifr)) := by
        unfold negCf
        congr 1
        push_cast
        ring
      rw [hnear, hfar]
      have hmapped : ([negCf (Cashflow.mk f.near_maturity_years
            (((if f.pay_foreign_receive_domestic = true then (1:ℚ) else -1) *
              f.notional_foreign * f.near_rate : ℚ) : ℝ))] ++
          [negCf (Cashflow.mk f.far_maturity_years
            (((-(if f.pay_foreign_receive_domestic = true then (1:ℚ) else -1) *
              f.notional_foreign : ℚ) : ℝ) * ifr))]) =
          ([Cashflow.mk f.near_maturity_years
            (((if f.pay_foreign_receive_domestic = true then (1:ℚ) else -1) *
              f.notional_foreign * f.near_rate : ℚ) : ℝ),
            Cashflow.mk f.far_maturity_years
            (((-(if f.pay_foreign_receive_domestic = true then (1:ℚ) else -1) *
              f.notional_foreign : ℚ) : ℝ) * ifr)].map negCf) := by
        simp
      rw [hmapped]
      exact pvSum_map_negCf s.model _

lemma ccsLeg_neg_sign (sw : CrossCurrencySwap) (model : RateModel) (notional : ℚ)
    (frequency : ℤ) (fixed_rate : Option ℚ) (spread : ℚ) (sign : ℚ)
    (fx : DeterministicFXCurve) (cf mtm : Bool) :
    sw.legCashflows model notional frequency fixed_rate spread (-sign) fx cf mtm =
      Option.map (List.map negCf)
        (sw.legCashflows model notional frequency fixed_rate spread sign fx cf mtm) := by
  unfold CrossCurrencySwap.legCashflows
  by_cases hfreq : frequency = 0
  · simp [hfreq]
  · simp only [hfreq, if_false]
    apply mapM_negCf
    intro k
    cases hrate : (match fixed_rate with
      | some r => some ((r : ℚ) : ℝ)
      | none => model.forward_rate ((k : ℚ) * (1 / (frequency : ℚ)))
          (((k : ℚ) + 1) * (1 / (frequency : ℚ)))) with
    | none => simp [hrate]
    | some rate =>
      simp only [hrate, Option.map_some']
      congr 1
      unfold negCf
      congr 1
      cases cf <;> simp only [Bool.false_eq_true, if_false, if_true] <;> push_cast <;> ring

lemma ccsResetFold_neg (sw : CrossCurrencySwap) (fx : DeterministicFXCurve)
    (sign dt : ℚ) :
    ∀ (idxs : List ℕ) (acc1 : List Cashflow) (cur : ℚ),
      (idxs.foldl
        (fun (acc : List Cashflow × ℚ) (i : ℕ) =>
          let t : ℚ := (i : ℚ) * dt
          let new_foreign_notional : ℚ :=
            sw.domestic_notional / max (fx.fx_forward t) (1/10^12)
          let delta_foreign : ℚ := new_foreign_notional - acc.2
          (acc.1 ++ [⟨t, ((-(-sign) * delta_foreign * fx.fx_forward t : ℚ) : ℝ)⟩],
           new_foreign_notional))
        (acc1.map negCf, cur)) =
      ((idxs.foldl
        (fun (acc : List Cashflow × ℚ) (i : ℕ) =>
          let t : ℚ := (i : ℚ) * dt
          let new_foreign_notional : ℚ :=
            sw.domestic_notional / max (fx.fx_forward t) (1/10^12)
          let delta_foreign : ℚ := new_foreign_notional - acc.2
          (acc.1 ++ [⟨t, ((-sign * delta_foreign * fx.fx_forward t : ℚ) : ℝ)⟩],
           new_foreign_notional))
        (acc1, cur)).1.map negCf,
       (idxs.foldl
        (fun (acc : List Cashflow × ℚ) (i : ℕ) =>
          let t : ℚ := (i : ℚ) * dt
          let new_foreign_notional : ℚ :=
            sw.domestic_notional / max (fx.fx_forward t) (1/10^12)
          let delta_foreign : ℚ := new_foreign_notional - acc.2
          (acc.1 ++ [⟨t, ((-sign * delta_foreign * fx.fx_forward t : ℚ) : ℝ)⟩],
           new_foreign_notional))
        (acc1, cur)).2) := by
  intro idxs
  induction idxs with
  | nil => intro acc1 cur; rfl
  | cons i rest ih =>
    intro acc1 cur
    simp only [List.foldl_cons]
    have hcf : Cashflow.mk ((i : ℚ) * dt)
        ((-(-sign) * (sw.domestic_notional / max (fx.fx_forward ((i : ℚ) * dt)) (1/10^12) - cur) *
          fx.fx_forward ((i : ℚ) * dt) : ℚ) : ℝ) =
        negCf (Cashflow.mk ((i : ℚ) * dt)
          ((-sign * (sw.domestic_notional / max (fx.fx_forward ((i : ℚ) * dt)) (1/10^12) - cur) *
            fx.fx_forward ((i : ℚ) * dt) : ℚ) : ℝ)) := by
      unfold negCf
      congr 1
      push_cast
      ring
    have hmap : (acc1.map negCf) ++ [negCf (Cashflow.mk ((i : ℚ) * dt)
        ((-sign * (sw.domestic_notional / max (fx.fx_forward ((i : ℚ) * dt)) (1/10^12) - cur) *
          fx.fx_forward ((i : ℚ) * dt) : ℚ) : ℝ))] =
        (acc1 ++ [Cashflow.mk ((i : ℚ) * dt)
          ((-sign * (sw.domestic_notional / max (fx.fx_forward ((i : ℚ) * dt)) (1/10^12) - cur) *
            fx.fx_forward ((i : ℚ) * dt) : ℚ) : ℝ)]).map negCf := by
      rw [List.map_append]
      rfl
    rw [hcf, hmap]
    exact ih _ _

/-- Negate all cashflow amounts in a CCS leg decomposition. -/
noncomputable def negLegs (L : CCSLegs) : CCSLegs :=
  ⟨L.notional_exchange_cashflows.map negCf, L.domestic_leg_cashflows.map negCf,
   L.foreign_leg_cashflows.map negCf, L.reset_exchange_cashflows.map negCf,
   L.net_cashflows.map negCf⟩

lemma legsWithSign_neg (sw : CrossCurrencySwap) (s : DerivScenario) (sg : ℚ) :
    sw.legsWithSign s (-sg) = Option.map negLegs (sw.legsWithSign s sg) := by
  unfold CrossCurrencySwap.legsWithSign
  dsimp only
  set c0 : ℚ := if sw.mark_to_market = true then
      sw.domestic_notional / max (s.fx_curve.fx_forward 0) (1/10^12)
    else sw.foreign_notional with hc0
  rw [ccsLeg_neg_sign sw s.model sw.domestic_notional sw.domestic_frequency
    sw.domestic_fixed_rate sw.domestic_spread sg s.fx_curve false false]
  rw [ccsLeg_neg_sign sw s.foreign_model c0 sw.foreign_frequency
    sw.foreign_fixed_rate sw.foreign_spread (-sg) s.fx_curve true sw.mark_to_market]
  cases hd : sw.legCashflows s.model sw.domestic_notional sw.domestic_frequency
      sw.domestic_fixed_rate sw.domestic_spread sg s.fx_curve false false with
  | none => rfl
  | some dom =>
    cases hf : sw.legCashflows s.foreign_model c0 sw.foreign_frequency
        sw.foreign_fixed_rate sw.foreign_spread (-sg) s.fx_curve true sw.mark_to_market with
    | none => rfl
    | some forg =>
      simp only [Option.map_some', Option.some_bind]
      have hres : (if sw.mark_to_market ∧ sw.exchange_notionals then
            ccsResetFold sw s.fx_curve (-sg) (1 / (sw.foreign_frequency : ℚ))
              (List.range' 1 ((pyRound (sw.maturity_years * sw.foreign_frequency)).toNat - 1)) c0
          else ([], c0)) =
          (((if sw.mark_to_market ∧ sw.exchange_notionals then
            ccsResetFold sw s.fx_curve sg (1 / (sw.foreign_frequency : ℚ))
              (List.range' 1 ((pyRound (sw.maturity_years * sw.foreign_frequency)).toNat - 1)) c0
          else ([], c0)).1.map negCf),
          ((if sw.mark_to_market ∧ sw.exchange_notionals then
            ccsResetFold sw s.fx_curve sg (1 / (sw.foreign_frequency : ℚ))
              (List.range' 1 ((pyRound (sw.maturity_years * sw.foreign_frequency)).toNat - 1)) c0
          else ([], c0)).2)) := by
        by_cases hcond : sw.mark_to_market ∧ sw.exchange_notionals
        · simp only [hcond, if_true]
          unfold ccsResetFold
          exact ccsResetFold_neg sw s.fx_curve sg (1 / (sw.foreign_frequency : ℚ))
            (List.range' 1 ((pyRound (sw.maturity_years * sw.foreign_frequency)).toNat - 1))
            [] c0
        · simp only [hcond, if_false]
          simp
      rw [hres]
      have hstart : (if sw.exchange_notionals = true then
            [(⟨0, ((-sg * sw.domestic_notional : ℚ) : ℝ)⟩ : Cashflow),
             ⟨0, ((-(-sg) * c0 * s.fx_curve.fx_forward 0 : ℚ) : ℝ)⟩]
          else []) =
          ((if sw.exchange_notionals = true then
            [(⟨0, ((sg * sw.domestic_notional : ℚ) : ℝ)⟩ : Cashflow),
             ⟨0, ((-sg * c0 * s.fx_curve.fx_forward 0 : ℚ) : ℝ)⟩]
          else []).map negCf) := by
        cases hexb : sw.exchange_notionals
        · simp
        · simp only [if_true, List.map_cons, List.map_nil]
          have h1 : (⟨0, ((-sg * sw.domestic_notional : ℚ) : ℝ)⟩ : Cashflow) =
              negCf ⟨0, ((sg * sw.domestic_notional : ℚ) : ℝ)⟩ := by
            unfold negCf; congr 1; push_cast; ring
          have h2 : (⟨0, ((-(-sg) * c0 * s.fx_curve.fx_forward 0 : ℚ) : ℝ)⟩ : Cashflow) =
              negCf ⟨0, ((-sg * c0 * s.fx_curve.fx_forward 0 : ℚ) : ℝ)⟩ := by
            unfold negCf; congr 1; push_cast; ring
          rw [h1, h2]
      set resets := (if sw.mark_to_market ∧ sw.exchange_notionals then
            ccsResetFold sw s.fx_curve sg (1 / (sw.foreign_frequency : ℚ))
              (List.range' 1 ((pyRound (sw.maturity_years * sw.foreign_frequency)).toNat - 1)) c0
          else ([], c0)) with hresets
      have hend : (if sw.exchange_notionals = true then
            [(⟨sw.maturity_years, ((-(-sg) * sw.domestic_notional : ℚ) : ℝ)⟩ : Cashflow),
             ⟨sw.maturity_years,
              ((-sg * resets.2 * s.fx_curve.fx_forward sw.maturity_years : ℚ) : ℝ)⟩]
          else []) =
          ((if sw.exchange_notionals = true then
            [(⟨sw.maturity_years, ((-sg * sw.domestic_notional : ℚ) : ℝ)⟩ : Cashflow),
             ⟨sw.maturity_years,
              ((sg * resets.2 * s.fx_curve.fx_forward sw.maturity_years : ℚ) : ℝ)⟩]
          else []).map negCf) := by
        cases hexb : sw.exchange_notionals
        · simp
        · simp only [if_true, List.map_cons, List.map_nil]
          have h1 : (⟨sw.maturity_years, ((-(-sg) * sw.domestic_notional : ℚ) : ℝ)⟩ : Cashflow) =
              negCf ⟨sw.maturity_years, ((-sg * sw.domestic_notional : ℚ) : ℝ)⟩ := by
            unfold negCf; congr 1; push_cast; ring
          have h2 : (⟨sw.maturity_years,
              ((-sg * resets.2 * s.fx_curve.fx_forward sw.maturity_years : ℚ) : ℝ)⟩ : Cashflow) =
              negCf ⟨sw.maturity_years,
                ((sg * resets.2 * s.fx_curve.fx_forward sw.maturity_years : ℚ) : ℝ)⟩ := by
            unfold negCf; congr 1; push_cast; ring
          rw [h1, h2]
      rw [hstart, hend]
      simp only [Option.some_bind, Option.map_some', Option.pure_def]
      unfold negLegs
      simp [List.map_append, List.append_assoc]

lemma CCS_flip_pv (sw : CrossCurrencySwap) (s : DerivScenario) :
    sw.flip.present_value s = Option.map (fun x => -x) (sw.present_value s) := by
  have hbody : sw.flip.legsWithSign = sw.legsWithSign := rfl
  unfold CrossCurrencySwap.present_value CrossCurrencySwap.get_cashflows
    CrossCurrencySwap.leg_cashflows
  rw [hbody]
  have hsign : (if sw.flip.pay_domestic_receive_foreign then (-1:ℚ) else 1) =
      -(if sw.pay_domestic_receive_foreign then (-1:ℚ) else 1) := by
    unfold CrossCurrencySwap.flip
    cases sw.pay_domestic_receive_foreign <;> norm_num
  rw [hsign, legsWithSign_neg]
  cases hv : sw.legsWithSign s (if sw.pay_domestic_receive_foreign then (-1:ℚ) else 1) with
  | none => rfl
  | some L =>
    simp only [Option.map_some', Option.some_bind]
    have : (negLegs L).net_cashflows = L.net_cashflows.map negCf := rfl
    rw [this]
    exact pvSum_map_negCf s.model _

/-- C4: for FX forwards, FX swaps and cross-currency swaps, flipping the
pay/receive flag while holding all other parameters fixed negates the
present value exactly; scenarios rejected by the pricer are rejected for
both orientations, so the equation holds as an `Option` identity. -/
theorem C4_pay_receive_symmetry :
    (∀ (f : FXForward) (s : DerivScenario),
      f.flip.present_value s = Option.map (fun x => -x) (f.present_value s)) ∧
    (∀ (f : FXSwap) (s : DerivScenario),
      f.flip.present_value s = Option.map (fun x => -x) (f.present_value s)) ∧
    (∀ (sw : CrossCurrencySwap) (s : DerivScenario),
      sw.flip.present_value s = Option.map (fun x => -x) (sw.present_value s)) :=
  ⟨FXForward_flip_pv, FXSwap_flip_pv, CCS_flip_pv⟩

/-! ## Fixed-rate bond (`src/products/bond.py`) and validation behavior -/

/-- `FixedRateBond`: notional, coupon rate, maturity, coupon frequency. -/
structure FixedRateBond where
  notional : ℚ
  coupon_rate : ℚ
  maturity_years : ℚ
  coupon_frequency : ℤ := 1

/-- `FixedRateBond.get_cashflows`: raises when
`round(maturity*frequency) <= 0`, else the coupon+principal schedule. -/
def FixedRateBond.get_cashflows (b : FixedRateBond) : Option (List Cashflow) :=
  let periods : ℤ := pyRound (b.maturity_years * b.coupon_frequency)
  if periods ≤ 0 then none
  else
    let dt : ℚ := 1 / b.coupon_frequency
    let coupon : ℚ := b.notional * b.coupon_rate * dt
    some ((List.range periods.toNat).map (fun (k : ℕ) =>
      (⟨((k : ℚ) + 1) * dt,
       ((coupon + if (k : ℤ) + 1 = periods then b.notional else 0 : ℚ) : ℝ)⟩ : Cashflow)))

/-- `FixedRateBond.present_value`: discounted schedule under the model. -/
noncomputable def FixedRateBond.present_value (b : FixedRateBond) (m : RateModel) :
    Option ℝ := do
  let cfs ← b.get_cashflows
  pvSum m cfs

lemma pyRound_nonpos {q : ℚ} (h : q ≤ 0) : pyRound q ≤ 0 := by
  unfold pyRound
  have hfl : ⌊q⌋ ≤ 0 := by
    have := Int.floor_le_floor h
    simpa using this
  by_cases h1 : q - ⌊q⌋ < 1/2
  · simp only [h1, if_true]
    exact hfl
  · simp only [h1, if_false]
    have hge : (1:ℚ)/2 ≤ q - ⌊q⌋ := le_of_not_lt h1
    have hlt : ⌊q⌋ ≤ -1 := by
      have h2 : (⌊q⌋ : ℚ) < 0 := by
        have hq : (⌊q⌋ : ℚ) ≤ q - 1/2 := by linarith
        linarith
      have h3 : ⌊q⌋ < 0 := by exact_mod_cast h2
      omega
    by_cases h2 : 1/2 < q - ⌊q⌋
    · simp only [h2, if_true]; omega
    · simp only [h2, if_false]
      by_cases h3 : 2 ∣ ⌊q⌋
      · simp only [h3, if_true]; exact hfl
      · simp only [h3, if_false]; omega

/-! ## German mortgage loan (`src/products/mortgage.py`) -/

/-- `BehaviouralPrepaymentModel`: deterministic prepayment combining
incentive, age and seasonality components. -/
structure BehaviouralPrepaymentModel where
  base_cpr : ℚ := 1/100
  incentive_weight : ℚ := 6/10
  age_weight : ℚ := 25/100
  seasonality_weight : ℚ := 15/100
  incentive_slope : ℚ := 12
  age_slope : ℚ := 1
  seasonality_factors : List ℚ :=
    [11/10, 11/10, 1, 98/100, 98/100, 1, 102/100, 102/100, 1, 1, 108/100, 112/100]
  min_cpr : ℚ := 0
  max_cpr : ℚ := 30/100

/-- `BehaviouralPrepaymentModel.cpr`: annualized CPR, clipped to
`[min_cpr, max_cpr]`; raises on non-positive maturity or a month index
outside `[1, 12]`. -/
noncomputable def BehaviouralPrepaymentModel.cpr (pm : BehaviouralPrepaymentModel)
    (fixed_rate : ℚ) (refinance_rate : ℝ) (age_years : ℚ) (maturity_years : ℚ)
    (month_index : ℤ) : Option ℝ :=
  if maturity_years ≤ 0 then none
  else if month_index < 1 ∨ 12 < month_index then none
  else
    let incentive : ℝ := max 0 ((fixed_rate : ℝ) - refinance_rate)
    let incentive_component : ℝ := 1 - Real.exp (-(pm.incentive_slope : ℝ) * incentive)
    let age_component : ℚ := min 1 (max 0 (pm.age_slope * age_years / maturity_years))
    let seasonality_raw : ℚ := pm.seasonality_factors.getD (month_index - 1).toNat 0
    let seasonality_component : ℚ := max 0 (seasonality_raw - 1)
    let combined : ℝ := (pm.base_cpr : ℝ) + (pm.incentive_weight : ℝ) * incentive_component +
      (pm.age_weight : ℝ) * (age_component : ℝ) +
      (pm.seasonality_weight : ℝ) * (seasonality_component : ℝ)
    some (min (pm.max_cpr : ℝ) (max (pm.min_cpr : ℝ) combined))

/-- `GermanFixedRateMortgageLoan`: amortizing fixed-rate mortgage with
optional behavioural prepayments. -/
structure GermanFixedRateMortgageLoan where
  notional : ℚ
  fixed_rate : ℚ
  maturity_years : ℚ
  repayment_type : String := "annuity"
  payment_frequency : String := "monthly"
  interest_only_years : ℚ := 0
  day_count : String := "30/360"
  prepayment_model : Option BehaviouralPrepaymentModel := none
  start_month : ℤ := 1

/-- `GermanFixedRateMortgageLoan._annuity_payment`: level payment over the
amortizing periods (`none` models Python's `ZeroDivisionError` on the
degenerate bases the formula cannot evaluate). -/
def mortgageAnnuityPayment (notional : ℚ) (rate_per_period : ℚ) (periods iop : ℤ) :
    Option ℚ :=
  let amort := periods - iop
  if amort ≤ 0 then some 0
  else if rate_per_period = 0 then some (notional / amort)
  else if (1 + rate_per_period) = 0 then none
  else
    let denom := 1 - (1 + rate_per_period) ^ (-amort)
    if denom = 0 then none
    else some (notional * rate_per_period / denom)

/-- `GermanFixedRateMortgageLoan._prepayment_amount`. -/
noncomputable def mortgagePrepaymentAmount (loan : GermanFixedRateMortgageLoan)
    (model : RateModel) (t0 t1 : ℚ) (period_idx : ℕ) (outstanding_after_sched : ℝ) :
    Option ℝ :=
  match loan.prepayment_model with
  | none => some 0
  | some pm =>
    if outstanding_after_sched ≤ 0 then some 0
    else do
      let remaining : ℚ := max (1/10^6) (loan.maturity_years - t0)
      let refinance_rate ← model.forward_rate t0 (min loan.maturity_years (t0 + remaining))
      let month : ℤ := ((loan.start_month - 1) + (period_idx : ℤ) - 1) % 12 + 1
      let annual_cpr ← pm.cpr loan.fixed_rate refinance_rate t0 loan.maturity_years month
      let dtq : ℚ := max (1/10^8) (t1 - t0)
      let smm : ℝ := 1 - (1 - annual_cpr) ^ ((dtq : ℚ) : ℝ)
      return outstanding_after_sched * smm

/-- The per-period loop of `_expected_cashflows`, with the early `break`
when the balance is exhausted; returns the cashflows in order plus the
final balance. -/
noncomputable def mortgageLoop (loan : GermanFixedRateMortgageLoan) (model : RateModel)
    (rate_per_period : ℚ) (dt : ℚ) (periods iop : ℤ) (annuity : ℝ) (const_principal : ℝ) :
    ℕ → ℕ → ℝ → Option (List Cashflow × ℝ)
  | 0, _, balance => some ([], balance)
  | fuel + 1, i, balance =>
    if balance ≤ (1/10^8 : ℝ) then some ([], balance)
    else do
      let t0 : ℚ := ((i : ℚ) - 1) * dt
      let t1 : ℚ := (i : ℚ) * dt
      let interest_cf : ℝ := balance * (rate_per_period : ℝ)
      let scheduled0 : ℝ ←
        if (i : ℤ) ≤ iop then some 0
        else if loan.repayment_type = "annuity" then some (max 0 (annuity - interest_cf))
        else if loan.repayment_type = "constant_repayment" then some const_principal
        else if loan.repayment_type = "interest_only_then_amortizing" then
          some (balance / ((max 1 (periods - (i : ℤ) + 1) : ℤ) : ℝ))
        else none
      let scheduled : ℝ := min balance scheduled0
      let post : ℝ := balance - scheduled
      let prepay0 ← mortgagePrepaymentAmount loan model t0 t1 i post
      let prepay : ℝ := min post prepay0
      let rest ← mortgageLoop loan model rate_per_period dt periods iop annuity
        const_principal fuel (i + 1) (post - prepay)
      return (⟨t1, interest_cf + scheduled + prepay⟩ :: rest.1, rest.2)

/-- `GermanFixedRateMortgageLoan._expected_cashflows`: validation, then
the amortization loop, then the residual balloon cashflow. -/
noncomputable def GermanFixedRateMortgageLoan.expected_cashflows
    (loan : GermanFixedRateMortgageLoan) (model : RateModel) : Option (List Cashflow) := do
  let months_per_period : ℚ ←
    if loan.payment_frequency = "monthly" then some 1
    else if loan.payment_frequency = "quarterly" then some 3
    else if loan.payment_frequency = "annual" then some 12
    else none
  if loan.maturity_years ≤ 0 then none
  else if loan.notional ≤ 0 then none
  else if loan.start_month < 1 ∨ 12 < loan.start_month then none
  else do
    let periods : ℤ := pyRound (loan.maturity_years * 12 / months_per_period)
    let dt : ℚ := months_per_period / 12
    let day_count_factor : ℚ ←
      if loan.day_count.toUpper = "30/360" then some dt
      else if loan.day_count.toUpper = "ACT/365" then some dt
      else none
    let rate_per_period : ℚ := loan.fixed_rate * day_count_factor
    let iop : ℤ := pyRound (loan.interest_only_years * 12 / months_per_period)
    let annuity ← mortgageAnnuityPayment loan.notional rate_per_period periods iop
    let const_principal : ℚ :=
      if loan.repayment_type = "constant_repayment" then
        loan.notional / ((max 1 (periods - iop) : ℤ) : ℚ)
      else 0
    let res ← mortgageLoop loan model rate_per_period dt periods iop
      ((annuity : ℚ) : ℝ) ((const_principal : ℚ) : ℝ) periods.toNat 1 ((loan.notional : ℚ) : ℝ)
    return (if (1/10^8 : ℝ) < res.2
      then res.1 ++ [⟨(periods : ℚ) * dt, res.2⟩]
      else res.1)

/-- `GermanFixedRateMortgageLoan.present_value`. -/
noncomputable def GermanFixedRateMortgageLoan.present_value
    (loan : GermanFixedRateMortgageLoan) (model : RateModel) : Option ℝ := do
  let cfs ← loan.expected_cashflows model
  pvSum model cfs

/-- The concrete (valid, flat) curve used for the C7 counterexample. -/
def c7Curve : DeterministicZeroCurve := ⟨[1, 2], [2/100, 2/100]⟩

/-- The concrete bond of the C7 counterexample: negative notional. -/
def c7Bond : FixedRateBond := ⟨-1000, 5/100, 1, 1⟩

/-- C7: the claim as stated is false on the code.  `FixedRateBond` never
validates its notional: the bond with notional `-1000` (maturity 1,
annual coupons) prices silently (`present_value` returns a value) on a
valid curve model. -/
theorem C7_counterexample :
    c7Bond.notional ≤ 0 ∧
    (c7Bond.present_value (RateModel.ofCurve c7Curve)).isSome = true := by
  constructor
  · norm_num [c7Bond]
  · have hper : pyRound (c7Bond.maturity_years * c7Bond.coupon_frequency) = 1 := by
      norm_num [c7Bond, pyRound]
    have hcf : c7Bond.get_cashflows =
        some [⟨1, ((c7Bond.notional * c7Bond.coupon_rate * 1 +
          c7Bond.notional : ℚ) : ℝ)⟩] := by
      unfold FixedRateBond.get_cashflows
      rw [hper]
      norm_num [c7Bond, List.range_succ]
    unfold FixedRateBond.present_value
    rw [hcf]
    have hdf : (RateModel.ofCurve c7Curve).discount_factor 1 =
        some (Real.exp (-((c7Curve.interp_zero_rate 1 * 1 : ℚ) : ℝ))) := by
      unfold RateModel.ofCurve DeterministicZeroCurve.discount_factor
      norm_num
    simp only [Option.some_bind, pvSum, List.foldlM_cons, List.foldlM_nil, hdf,
      Option.map_some']
    rfl

/-- C7 (amended): maturity validation is real but notional validation
is not uniform: `FixedRateBond.get_cashflows`/`present_value` raise
whenever the maturity is non-positive (with a positive coupon frequency);
`GermanFixedRateMortgageLoan` raises on non-positive notional OR
non-positive maturity at first valuation; `FXForward.present_value`
raises for negative maturity when discounting on a zero curve.  (The
notional clause of the original claim fails — see `C7_counterexample` —
so the amended claim only asserts the checks the code performs.) -/
theorem C7_validation_amended :
    (∀ b : FixedRateBond, 0 < b.coupon_frequency → b.maturity_years ≤ 0 →
      b.get_cashflows = none ∧ ∀ m : RateModel, b.present_value m = none) ∧
    (∀ (loan : GermanFixedRateMortgageLoan) (model : RateModel),
      loan.notional ≤ 0 ∨ loan.maturity_years ≤ 0 →
      loan.expected_cashflows model = none ∧ loan.present_value model = none) ∧
    (∀ (f : FXForward) (c : DeterministicZeroCurve) (fm : RateModel)
        (fx : DeterministicFXCurve), f.maturity_years < 0 →
      f.present_value ⟨RateModel.ofCurve c, fm, fx⟩ = none) := by
  refine ⟨?_, ?_, ?_⟩
  · intro b hfreq hmat
    have hprod : b.maturity_years * (b.coupon_frequency : ℚ) ≤ 0 := by
      have hf : (0:ℚ) ≤ (b.coupon_frequency : ℚ) := by exact_mod_cast le_of_lt hfreq
      exact mul_nonpos_iff.mpr (Or.inr ⟨hmat, hf⟩)
    have hper : pyRound (b.maturity_years * b.coupon_frequency) ≤ 0 := pyRound_nonpos hprod
    have hnone : b.get_cashflows = none := by
      unfold FixedRateBond.get_cashflows
      simp [hper]
    refine ⟨hnone, fun m => ?_⟩
    unfold FixedRateBond.present_value
    rw [hnone]
    rfl
  · intro loan model hbad
    have hnone : loan.expected_cashflows model = none := by
      unfold GermanFixedRateMortgageLoan.expected_cashflows
      by_cases h1 : loan.payment_frequency = "monthly" <;>
        by_cases h2 : loan.payment_frequency = "quarterly" <;>
        by_cases h3 : loan.payment_frequency = "annual" <;>
        rcases hbad with hb | hb <;>
        by_cases hm : loan.maturity_years ≤ 0 <;>
        simp_all
    refine ⟨hnone, ?_⟩
    unfold GermanFixedRateMortgageLoan.present_value
    rw [hnone]
    rfl
  · intro f c fm fx hmat
    unfold FXForward.present_value FXForward.get_cashflows pvSum
    have hdf : (RateModel.ofCurve c).discount_factor f.maturity_years = none := by
      unfold RateModel.ofCurve DeterministicZeroCurve.discount_factor
      simp [hmat]
    simp [hdf]

/-- Witness for `C7_validation_amended`: the mortgage clause at a
concrete loan with negative notional. -/
theorem C7_witness :
    ((-5 : ℚ) ≤ 0 ∨ (10:ℚ) ≤ 0) ∧
    (GermanFixedRateMortgageLoan.mk (-5) (3/100) 10 "annuity" "monthly" 0 "30/360" none 1).expected_cashflows
      (RateModel.ofCurve c7Curve) = none :=
  ⟨Or.inl (by norm_num),
   (C7_validation_amended.2.1
     (GermanFixedRateMortgageLoan.mk (-5) (3/100) 10 "annuity" "monthly" 0 "30/360" none 1)
     (RateModel.ofCurve c7Curve) (Or.inl (by norm_num))).1⟩

/-! ## Callable fixed-rate bond (`products/callable_bond.py`) -/

/-- `CallableFixedRateBond`: callable bond priced on a short-rate lattice. -/
structure CallableFixedRateBond where
  notional : ℚ
  coupon_rate : ℚ
  maturity_years : ℚ
  coupon_frequency : ℤ := 1
  call_schedule : List (ℚ × ℚ) := []
  short_rate_volatility : ℚ := 1/100

/-- One backward-induction layer of `price_with_oas`: from the `i+2`
node values at time `(i+1)*dt` produce the `i+1` node values at `i*dt`.
Node `j` has state `2j - i`; the local rate adds the volatility ladder
and the OAS to the model short rate, and the call map caps the
continuation value at payment times in the call schedule. -/
noncomputable def latticeRow (m : RateModel) (sigma : ℚ) (sqrt_dt : ℝ)
    (oas dt coupon : ℚ) (call_map : List (ℚ × ℚ)) (i : ℕ) (values : List ℝ) :
    Option (List ℝ) :=
  (List.range (i + 1)).mapM (fun (j : ℕ) => do
    let r0 ← m.short_rate ((i : ℚ) * dt)
    let local_r : ℝ := r0 + ((2 * (j : ℤ) - (i : ℤ) : ℤ) : ℝ) * (sigma : ℝ) * sqrt_dt +
      ((oas : ℚ) : ℝ)
    let disc : ℝ := Real.exp (-local_r * ((dt : ℚ) : ℝ))
    let cont : ℝ := disc * (1/2 * values.getD j 0 + 1/2 * values.getD (j + 1) 0 +
      ((coupon : ℚ) : ℝ))
    match lookupLast call_map (((i : ℚ) + 1) * dt) with
    | some cp => some (min cont (disc * (((cp : ℚ) : ℝ) + ((coupon : ℚ) : ℝ))))
    | none => some cont)

/-- The full backward induction: `latticeIter … k values` runs the layers
`i = k-1, k-2, …, 0` (the Python `for i in range(n-1, -1, -1)` loop). -/
noncomputable def latticeIter (m : RateModel) (sigma : ℚ) (sqrt_dt : ℝ)
    (oas dt coupon : ℚ) (call_map : List (ℚ × ℚ)) : ℕ → List ℝ → Option (List ℝ)
  | 0, values => some values
  | k + 1, values =>
    (latticeRow m sigma sqrt_dt oas dt coupon call_map k values).bind
      (fun next => latticeIter m sigma sqrt_dt oas dt coupon call_map k next)

/-- `CallableFixedRateBond.price_with_oas`: raises when
`round(maturity*frequency) <= 0`, otherwise runs the short-rate lattice
from terminal values equal to the notional and returns the root value. -/
noncomputable def CallableFixedRateBond.price_with_oas (cb : CallableFixedRateBond)
    (oas : ℚ) (m : RateModel) : Option ℝ :=
  let n : ℤ := pyRound (cb.maturity_years * cb.coupon_frequency)
  if n ≤ 0 then none
  else
    let dt : ℚ := 1 / cb.coupon_frequency
    let coupon : ℚ := cb.notional * cb.coupon_rate * dt
    let sigma : ℚ := max cb.short_rate_volatility 0
    let sqrt_dt : ℝ := Real.sqrt ((dt : ℚ) : ℝ)
    let call_map : List (ℚ × ℚ) := cb.call_schedule.foldl (fun acc p => upsert acc p.1 p.2) []
    (latticeIter m sigma sqrt_dt oas dt coupon call_map n.toNat
        (List.replicate (n.toNat + 1) ((cb.notional : ℚ) : ℝ))).bind
      (fun final => some (final.getD 0 0))

/-- `CallableFixedRateBond.present_value` = `price_with_oas 0`. -/
noncomputable def CallableFixedRateBond.present_value (cb : CallableFixedRateBond)
    (m : RateModel) : Option ℝ :=
  cb.price_with_oas 0 m

lemma lastD_replicate : ∀ (n : ℕ) (r : ℚ), 1 ≤ n → lastD (List.replicate n r) = r := by
  intro n
  induction n with
  | zero => intro r h; simp at h
  | succ k ih =>
    intro r _
    cases hk : k with
    | zero => simp [lastD]
    | succ k' =>
      have := ih r (by omega)
      rw [hk] at this
      simpa [List.replicate_succ, lastD] using this

lemma chainle_replicate : ∀ (n : ℕ) (r : ℚ), (List.replicate n r).Chain' (· ≤ ·) := by
  intro n r
  induction n with
  | zero => simp
  | succ k ih =>
    rw [List.replicate_succ]
    cases hk : k with
    | zero => simp
    | succ k' =>
      rw [hk] at ih
      rw [List.replicate_succ] at ih ⊢
      exact List.chain'_cons.mpr ⟨le_refl r, ih⟩

/-- On a flat curve (all zero rates equal to `r`) the interpolated zero
rate is `r` everywhere. -/
lemma interp_zero_rate_flat (c : DeterministicZeroCurve) (r : ℚ)
    (hv : c.validCurve) (hflat : c.zero_rates = List.replicate c.tenors.length r) :
    ∀ t : ℚ, c.interp_zero_rate t = r := by
  intro t
  obtain ⟨hlen, hlen2, hch⟩ := hv
  have hlenr : 1 ≤ c.tenors.length := by omega
  have hhead : c.zero_rates.headD 0 = r := by
    rw [hflat]
    cases hn : c.tenors.length with
    | zero => omega
    | succ k => simp [List.replicate_succ]
  have hlast : lastD c.zero_rates = r := by
    rw [hflat]; exact lastD_replicate _ _ hlenr
  have hychain : c.zero_rates.Chain' (· ≤ ·) := by
    rw [hflat]; exact chainle_replicate _ _
  unfold DeterministicZeroCurve.interp_zero_rate
  by_cases h0 : t ≤ 0
  · rw [if_pos h0]; exact hhead
  · rw [if_neg h0]
    by_cases h1 : t ≤ c.tenors.headD 0
    · rw [if_pos h1]; exact hhead
    · rw [if_neg h1]
      by_cases h2 : lastD c.tenors ≤ t
      · rw [if_pos h2]; exact hlast
      · rw [if_neg h2]
        have hlo : c.tenors.headD 0 ≤ t := le_of_not_le h1
        have hhi : t ≤ lastD c.tenors := le_of_lt (lt_of_not_le h2)
        have hge := npInterpSeg_ge_head c.tenors c.zero_rates hlen hch hychain t hlo hhi hlen2
        have hle := npInterpSeg_le_last c.tenors c.zero_rates hlen hch hychain t hlo hhi hlen2
        rw [hhead] at hge
        rw [hlast] at hle
        exact le_antisymm hle hge

lemma getD_replicate_of_lt (n : ℕ) (v : ℝ) (i : ℕ) (h : i < n) :
    (List.replicate n v).getD i 0 = v := by
  rw [List.getD_eq_getElem _ _ (by simpa using h)]
  simp

lemma mapM_eq_replicate {α β : Type} (c : β) :
    ∀ (l : List α) (f : α → Option β), (∀ x ∈ l, f x = some c) →
      l.mapM f = some (List.replicate l.length c) := by
  intro l
  induction l with
  | nil => intro f _; rfl
  | cons a l' ih =>
    intro f h
    rw [List.mapM_cons, h a (by simp)]
    rw [ih f (fun x hx => h x (by simp [hx]))]
    simp [List.replicate_succ]

/-- One scalar backward step of the lattice on a flat curve: all nodes of
a layer share this value map when the volatility is zero. -/
noncomputable def flatStep (r dt coupon : ℚ) (v : ℝ) : ℝ :=
  Real.exp (-((r : ℚ) : ℝ) * ((dt : ℚ) : ℝ)) *
    (1/2 * v + 1/2 * v + ((coupon : ℚ) : ℝ))

/-- Iterated scalar backward steps. -/
noncomputable def flatStepIter (r dt coupon : ℚ) : ℕ → ℝ → ℝ
  | 0, v => v
  | k + 1, v => flatStepIter r dt coupon k (flatStep r dt coupon v)

lemma latticeRow_flat (m : RateModel) (r dt coupon : ℚ) (hdt : 0 ≤ dt)
    (hsr : ∀ t : ℚ, 0 ≤ t → m.short_rate t = some ((r : ℚ) : ℝ))
    (k : ℕ) (v : ℝ) :
    latticeRow m 0 (Real.sqrt ((dt : ℚ) : ℝ)) 0 dt coupon [] k
      (List.replicate (k + 2) v) =
    some (List.replicate (k + 1) (flatStep r dt coupon v)) := by
  unfold latticeRow
  have hlen : (List.range (k + 1)).length = k + 1 := List.length_range _
  refine Eq.trans (mapM_eq_replicate _ _ _ ?_) (by rw [hlen])
  intro j hj
  have hjlt : j < k + 1 := List.mem_range.mp hj
  rw [hsr ((k : ℚ) * dt) (mul_nonneg (by positivity) hdt)]
  have hg1 : (List.replicate (k + 2) v).getD j 0 = v :=
    getD_replicate_of_lt _ _ _ (by omega)
  have hg2 : (List.replicate (k + 2) v).getD (j + 1) 0 = v :=
    getD_replicate_of_lt _ _ _ (by omega)
  simp only [Option.some_bind, hg1, hg2]
  have hlk : lookupLast ([] : List (ℚ × ℚ)) (((k : ℚ) + 1) * dt) = none := rfl
  rw [hlk]
  unfold flatStep
  norm_num

lemma latticeIter_flat (m : RateModel) (r dt coupon : ℚ) (hdt : 0 ≤ dt)
    (hsr : ∀ t : ℚ, 0 ≤ t → m.short_rate t = some ((r : ℚ) : ℝ)) :
    ∀ (k : ℕ) (v : ℝ),
      latticeIter m 0 (Real.sqrt ((dt : ℚ) : ℝ)) 0 dt coupon [] k
        (List.replicate (k + 1) v) =
      some [flatStepIter r dt coupon k v] := by
  intro k
  induction k with
  | zero => intro v; rfl
  | succ k ih =>
    intro v
    show (latticeRow m 0 (Real.sqrt ((dt : ℚ) : ℝ)) 0 dt coupon [] k
        (List.replicate (k + 2) v)).bind _ = _
    rw [latticeRow_flat m r dt coupon hdt hsr k v]
    simp only [Option.some_bind]
    rw [ih (flatStep r dt coupon v)]
    rfl

lemma flatStep_eq (r dt coupon : ℚ) (v : ℝ) :
    flatStep r dt coupon v =
    Real.exp (-((r : ℚ) : ℝ) * ((dt : ℚ) : ℝ)) * (v + ((coupon : ℚ) : ℝ)) := by
  unfold flatStep
  ring

/-- Discounted coupon strip over `n` periods at flat rate `r`. -/
noncomputable def flatCouponSum (r dt coupon : ℚ) (n : ℕ) : ℝ :=
  ((List.range n).map (fun k =>
    Real.exp (-((r : ℚ) : ℝ) * ((dt : ℚ) : ℝ)) ^ (k + 1) * ((coupon : ℚ) : ℝ))).sum

lemma flatCouponSum_succ (r dt coupon : ℚ) (n : ℕ) :
    flatCouponSum r dt coupon (n + 1) =
    flatCouponSum r dt coupon n +
      Real.exp (-((r : ℚ) : ℝ) * ((dt : ℚ) : ℝ)) ^ (n + 1) * ((coupon : ℚ) : ℝ) := by
  unfold flatCouponSum
  rw [List.range_succ, List.map_append, List.sum_append]
  simp

lemma flatStepIter_closed (r dt coupon : ℚ) : ∀ (n : ℕ) (v : ℝ),
    flatStepIter r dt coupon n v =
    Real.exp (-((r : ℚ) : ℝ) * ((dt : ℚ) : ℝ)) ^ n * v + flatCouponSum r dt coupon n := by
  intro n
  induction n with
  | zero =>
    intro v
    unfold flatStepIter flatCouponSum
    simp
  | succ n ih =>
    intro v
    show flatStepIter r dt coupon n (flatStep r dt coupon v) = _
    rw [ih, flatStep_eq, flatCouponSum_succ]
    ring

lemma pvSum_eval (m : RateModel) (f : ℚ → ℝ) :
    ∀ (cfs : List Cashflow), (∀ cf ∈ cfs, m.discount_factor cf.time = some (f cf.time)) →
      ∀ acc : ℝ,
      cfs.foldlM (fun acc cf =>
          (m.discount_factor cf.time).map (fun df => acc + cf.amount * df)) acc =
        some (acc + (cfs.map (fun cf => cf.amount * f cf.time)).sum) := by
  intro cfs
  induction cfs with
  | nil => intro _ acc; simp
  | cons cf cfs ih =>
    intro h acc
    rw [List.foldlM_cons, h cf (by simp), Option.map_some']
    show List.foldlM _ (acc + cf.amount * f cf.time) cfs = _
    rw [ih (fun c hc => h c (by simp [hc])) (acc + cf.amount * f cf.time)]
    simp only [List.map_cons, List.sum_cons]
    rw [add_assoc]

lemma exp_flat_pow (r dt : ℚ) (k : ℕ) :
    Real.exp (-((r * (((k : ℚ) + 1) * dt) : ℚ) : ℝ)) =
    Real.exp (-((r : ℚ) : ℝ) * ((dt : ℚ) : ℝ)) ^ (k + 1) := by
  rw [← Real.exp_nat_mul]
  congr 1
  push_cast
  ring

lemma bondFlatSum (r dt coupon nq : ℚ) (nn : ℕ) :
    ((List.range (nn + 1)).map (fun k =>
      ((coupon + if k + 1 = nn + 1 then nq else 0 : ℚ) : ℝ) *
        Real.exp (-((r : ℚ) : ℝ) * ((dt : ℚ) : ℝ)) ^ (k + 1))).sum =
    flatCouponSum r dt coupon (nn + 1) +
      Real.exp (-((r : ℚ) : ℝ) * ((dt : ℚ) : ℝ)) ^ (nn + 1) * ((nq : ℚ) : ℝ) := by
  rw [List.range_succ, List.map_append, List.sum_append]
  have hbody : (List.range nn).map (fun k =>
      ((coupon + if k + 1 = nn + 1 then nq else 0 : ℚ) : ℝ) *
        Real.exp (-((r : ℚ) : ℝ) * ((dt : ℚ) : ℝ)) ^ (k + 1)) =
      (List.range nn).map (fun k =>
        Real.exp (-((r : ℚ) : ℝ) * ((dt : ℚ) : ℝ)) ^ (k + 1) * ((coupon : ℚ) : ℝ)) := by
    apply List.map_congr_left
    intro k hk
    have hklt : k < nn := List.mem_range.mp hk
    rw [if_neg (by omega)]
    push_cast
    ring
  rw [hbody, flatCouponSum_succ]
  simp only [List.map_cons, List.map_nil, List.sum_cons, List.sum_nil, add_zero,
    eq_self_iff_true, if_true]
  show flatCouponSum r dt coupon nn + _ = _
  push_cast
  ring

/-- C8 (amended): on a FLAT valid zero curve, a `CallableFixedRateBond`
with an empty call schedule and zero short-rate volatility has exactly
the same present value as the plain `FixedRateBond` with the same terms
(in particular it is within every relative tolerance).  On non-flat
curves the claim fails — see `C8_counterexample`: the lattice discounts
every period at the locally interpolated short rate, not at the zero
rate to each payment date. -/
theorem C8_flat_curve_amended :
    ∀ (cb : CallableFixedRateBond) (c : DeterministicZeroCurve) (r : ℚ),
      cb.call_schedule = [] → cb.short_rate_volatility = 0 →
      0 < cb.coupon_frequency → c.validCurve →
      c.zero_rates = List.replicate c.tenors.length r →
      cb.present_value (RateModel.ofCurve c) =
        (FixedRateBond.mk cb.notional cb.coupon_rate cb.maturity_years
          cb.coupon_frequency).present_value (RateModel.ofCurve c) := by
  intro cb c r hcs hvol hf hv hflatL
  have hflat : ∀ t : ℚ, c.interp_zero_rate t = r := interp_zero_rate_flat c r hv hflatL
  have hsr : ∀ t : ℚ, 0 ≤ t → (RateModel.ofCurve c).short_rate t = some ((r : ℚ) : ℝ) := by
    intro t ht
    unfold RateModel.ofCurve
    dsimp only
    unfold DeterministicZeroCurve.short_rate
    rw [if_neg (not_lt.mpr ht), hflat t]
    rfl
  have hdfr : ∀ t : ℚ, 0 ≤ t → (RateModel.ofCurve c).discount_factor t =
      some (Real.exp (-((r * t : ℚ) : ℝ))) := by
    intro t ht
    unfold RateModel.ofCurve
    dsimp only
    unfold DeterministicZeroCurve.discount_factor
    rw [if_neg (not_lt.mpr ht), hflat t]
  have hfq : (0 : ℚ) < (cb.coupon_frequency : ℚ) := by exact_mod_cast hf
  have hdtpos : (0 : ℚ) < 1 / (cb.coupon_frequency : ℚ) := by positivity
  unfold CallableFixedRateBond.present_value CallableFixedRateBond.price_with_oas
    FixedRateBond.present_value FixedRateBond.get_cashflows
  dsimp only
  by_cases hn0 : pyRound (cb.maturity_years * (cb.coupon_frequency : ℚ)) ≤ 0
  · rw [if_pos hn0, if_pos hn0]
    rfl
  · rw [if_neg hn0, if_neg hn0]
    have hpos : 0 < pyRound (cb.maturity_years * (cb.coupon_frequency : ℚ)) :=
      lt_of_not_le hn0
    rw [hvol, hcs]
    rw [show (max (0:ℚ) 0) = 0 from max_self 0]
    rw [show (List.foldl (fun acc p => upsert acc p.1 p.2) [] ([] : List (ℚ × ℚ))) =
      ([] : List (ℚ × ℚ)) from rfl]
    rw [latticeIter_flat (RateModel.ofCurve c) r (1 / (cb.coupon_frequency : ℚ))
      (cb.notional * cb.coupon_rate * (1 / (cb.coupon_frequency : ℚ)))
      (le_of_lt hdtpos) hsr
      (pyRound (cb.maturity_years * (cb.coupon_frequency : ℚ))).toNat
      ((cb.notional : ℚ) : ℝ)]
    simp only [Option.some_bind, List.getD_cons_zero]
    show _ = pvSum (RateModel.ofCurve c) _
    unfold pvSum
    rw [pvSum_eval (RateModel.ofCurve c) (fun t => Real.exp (-((r * t : ℚ) : ℝ))) _ ?hmem 0]
    case hmem =>
      intro cf hcf
      obtain ⟨k, hk, hcfeq⟩ := List.mem_map.mp hcf
      rw [← hcfeq]
      exact hdfr _ (by positivity)
    congr 1
    rw [List.map_map]
    set nn : ℕ := (pyRound (cb.maturity_years * (cb.coupon_frequency : ℚ))).toNat with hnn
    have hcast : (nn : ℤ) = pyRound (cb.maturity_years * (cb.coupon_frequency : ℚ)) :=
      Int.toNat_of_nonneg (le_of_lt hpos)
    have hnn1 : 1 ≤ nn := by omega
    have hiff : ∀ k : ℕ,
        (((k : ℤ) + 1 = pyRound (cb.maturity_years * (cb.coupon_frequency : ℚ))) ↔
          (k + 1 = nn)) := by
      intro k
      rw [← hcast]
      omega
    have hmapeq : (List.range nn).map ((fun cf => cf.amount *
        Real.exp (-((r * cf.time : ℚ) : ℝ))) ∘ (fun (k : ℕ) =>
        (⟨((k : ℚ) + 1) * (1 / (cb.coupon_frequency : ℚ)),
          ((cb.notional * cb.coupon_rate * (1 / (cb.coupon_frequency : ℚ)) +
            if (k : ℤ) + 1 = pyRound (cb.maturity_years * (cb.coupon_frequency : ℚ))
            then cb.notional else 0 : ℚ) : ℝ)⟩ : Cashflow))) =
        (List.range nn).map (fun k =>
          ((cb.notional * cb.coupon_rate * (1 / (cb.coupon_frequency : ℚ)) +
            if k + 1 = nn then cb.notional else 0 : ℚ) : ℝ) *
          Real.exp (-((r : ℚ) : ℝ) * (((1 / (cb.coupon_frequency : ℚ) : ℚ)) : ℝ)) ^ (k + 1)) := by
      apply List.map_congr_left
      intro k hk
      simp only [Function.comp_def]
      rw [exp_flat_pow r (1 / (cb.coupon_frequency : ℚ)) k]
      congr 2
      rw [if_congr (hiff k) rfl rfl]
    rw [hmapeq]
    obtain ⟨m, hm⟩ : ∃ m, nn = m + 1 := ⟨nn - 1, by omega⟩
    rw [hm]
    rw [bondFlatSum r (1 / (cb.coupon_frequency : ℚ))
      (cb.notional * cb.coupon_rate * (1 / (cb.coupon_frequency : ℚ))) cb.notional m]
    rw [flatStepIter_closed]
    ring

/-- The non-flat curve of the C8 counterexample. -/
def c8Curve : DeterministicZeroCurve := ⟨[1, 2], [0, 1/2]⟩

/-- The C8 counterexample bond: zero-coupon two-year bullet, no calls,
zero volatility. -/
def c8Bond : CallableFixedRateBond := ⟨100, 0, 2, 1, [], 0⟩

lemma c8_short_rate_zero (t : ℚ) (h0 : 0 ≤ t) (h1 : t ≤ 1) :
    (RateModel.ofCurve c8Curve).short_rate t = some ((0 : ℚ) : ℝ) := by
  unfold RateModel.ofCurve
  dsimp only
  unfold DeterministicZeroCurve.short_rate DeterministicZeroCurve.interp_zero_rate
  rw [if_neg (not_lt.mpr h0)]
  by_cases ht0 : t ≤ 0
  · norm_num [c8Curve, ht0]
  · norm_num [c8Curve, ht0, h1]

lemma c8_lattice_eval :
    (latticeIter (RateModel.ofCurve c8Curve) 0 1 0 1 0 [] (Int.toNat 2)
      (List.replicate (Int.toNat 2 + 1) (100:ℝ))).bind
      (fun a => some (a[0]?.getD 0)) = some (100:ℝ) := by
  have hsr0 : (RateModel.ofCurve c8Curve).short_rate 0 = some ((0 : ℚ) : ℝ) :=
    c8_short_rate_zero 0 (by norm_num) (by norm_num)
  have hsr1 : (RateModel.ofCurve c8Curve).short_rate 1 = some ((0 : ℚ) : ℝ) :=
    c8_short_rate_zero 1 (by norm_num) (by norm_num)
  rw [show Int.toNat 2 = 2 from rfl]
  rw [show List.replicate (2 + 1) (100:ℝ) = [100, 100, 100] from rfl]
  have hrow1 : latticeRow (RateModel.ofCurve c8Curve) 0 1 0 1 0 [] 1 [100, 100, 100] =
      some [(100:ℝ), 100] := by
    unfold latticeRow
    rw [show List.range (1 + 1) = [0, 1] from rfl]
    rw [List.mapM_cons, List.mapM_cons, List.mapM_nil]
    rw [show ((1:ℕ):ℚ) * 1 = 1 by norm_num]
    rw [hsr1]
    norm_num [lookupLast, Real.exp_zero]
  have hrow0 : latticeRow (RateModel.ofCurve c8Curve) 0 1 0 1 0 [] 0 [(100:ℝ), 100] =
      some [(100:ℝ)] := by
    unfold latticeRow
    rw [show List.range (0 + 1) = [0] from rfl]
    rw [List.mapM_cons, List.mapM_nil]
    rw [show ((0:ℕ):ℚ) * 1 = 0 by norm_num]
    rw [hsr0]
    norm_num [lookupLast, Real.exp_zero]
  have h2 : latticeIter (RateModel.ofCurve c8Curve) 0 1 0 1 0 [] 2 [100, 100, 100] =
      (latticeRow (RateModel.ofCurve c8Curve) 0 1 0 1 0 [] 1 [100, 100, 100]).bind
        (fun next => latticeIter (RateModel.ofCurve c8Curve) 0 1 0 1 0 [] 1 next) := rfl
  rw [h2, hrow1]
  simp only [Option.some_bind]
  have h1 : latticeIter (RateModel.ofCurve c8Curve) 0 1 0 1 0 [] 1 [(100:ℝ), 100] =
      (latticeRow (RateModel.ofCurve c8Curve) 0 1 0 1 0 [] 0 [(100:ℝ), 100]).bind
        (fun next => latticeIter (RateModel.ofCurve c8Curve) 0 1 0 1 0 [] 0 next) := rfl
  rw [h1, hrow0]
  simp only [Option.some_bind]
  rw [show latticeIter (RateModel.ofCurve c8Curve) 0 1 0 1 0 [] 0 [(100:ℝ)] =
    some [(100:ℝ)] from rfl]
  simp

/-- C8: the claim as stated is false.  On the valid (non-flat) curve
with zero rates `[0, 1/2]` at tenors `[1, 2]`, the callable bond with
empty call schedule and zero volatility prices to `100` on the lattice
(which discounts at the locally interpolated short rate), while the
equivalent `FixedRateBond` prices to `100·exp(-1)`; the two differ by
far more than `5e-3` relative tolerance measured against either side. -/
theorem C8_counterexample :
    c8Curve.validCurve ∧
    c8Bond.call_schedule = [] ∧
    c8Bond.short_rate_volatility = 0 ∧
    c8Bond.present_value (RateModel.ofCurve c8Curve) = some 100 ∧
    FixedRateBond.present_value ⟨100, 0, 2, 1⟩ (RateModel.ofCurve c8Curve) =
      some (100 * Real.exp (-1)) ∧
    (5/1000 : ℝ) * |100 * Real.exp (-1)| < |(100 : ℝ) - 100 * Real.exp (-1)| ∧
    (5/1000 : ℝ) * |(100 : ℝ)| < |(100 : ℝ) - 100 * Real.exp (-1)| := by
  have hexp2 : (2 : ℝ) ≤ Real.exp 1 := by
    have h := Real.add_one_le_exp 1
    linarith
  have hinv : Real.exp (-1) * Real.exp 1 = 1 := by
    rw [← Real.exp_add]
    norm_num
  have hepos : (0 : ℝ) < Real.exp (-1) := Real.exp_pos _
  have hehalf : Real.exp (-1) ≤ 1/2 := by nlinarith
  refine ⟨by norm_num [DeterministicZeroCurve.validCurve, c8Curve], rfl, rfl, ?_, ?_, ?_, ?_⟩
  · unfold c8Bond CallableFixedRateBond.present_value CallableFixedRateBond.price_with_oas
    have hn : pyRound ((2 : ℚ) * ((1 : ℤ) : ℚ)) = 2 := by norm_num [pyRound]
    rw [hn]
    norm_num
    exact c8_lattice_eval
  · unfold FixedRateBond.present_value FixedRateBond.get_cashflows
    have hn : pyRound ((2 : ℚ) * ((1 : ℤ) : ℚ)) = 2 := by norm_num [pyRound]
    have hdf1 : (RateModel.ofCurve c8Curve).discount_factor 1 = some 1 := by
      unfold RateModel.ofCurve
      dsimp only
      unfold DeterministicZeroCurve.discount_factor DeterministicZeroCurve.interp_zero_rate
      norm_num [c8Curve, Real.exp_zero]
    have hdf2 : (RateModel.ofCurve c8Curve).discount_factor 2 = some (Real.exp (-1)) := by
      unfold RateModel.ofCurve
      dsimp only
      unfold DeterministicZeroCurve.discount_factor DeterministicZeroCurve.interp_zero_rate
      norm_num [c8Curve, lastD]
    dsimp only
    rw [hn]
    norm_num [pvSum]
    rw [show List.range (Int.toNat 2) = [0, 1] from rfl]
    norm_num [List.foldlM_cons, List.foldlM_nil, hdf1, hdf2]
  · have h1 : |100 * Real.exp (-1)| = 100 * Real.exp (-1) := abs_of_pos (by positivity)
    have h2 : |(100:ℝ) - 100 * Real.exp (-1)| = 100 - 100 * Real.exp (-1) :=
      abs_of_pos (by nlinarith)
    rw [h1, h2]
    nlinarith
  · have h2 : |(100:ℝ) - 100 * Real.exp (-1)| = 100 - 100 * Real.exp (-1) :=
      abs_of_pos (by nlinarith)
    rw [h2, abs_of_pos (by norm_num : (0:ℝ) < 100)]
    nlinarith

/-- Witness for `C8_flat_curve_amended`: a 2y 5% annual callable bond
with no calls and zero vol on the flat 3% curve prices exactly like the
plain bond. -/
theorem C8_witness :
    (CallableFixedRateBond.mk 100 (5/100) 2 1 [] 0).call_schedule = [] ∧
    (CallableFixedRateBond.mk 100 (5/100) 2 1 [] 0).short_rate_volatility = 0 ∧
    (0 : ℤ) < (CallableFixedRateBond.mk 100 (5/100) 2 1 [] 0).coupon_frequency ∧
    DeterministicZeroCurve.validCurve ⟨[1, 2], [3/100, 3/100]⟩ ∧
    (DeterministicZeroCurve.mk [1, 2] [3/100, 3/100]).zero_rates =
      List.replicate (DeterministicZeroCurve.mk [1, 2] [3/100, 3/100]).tenors.length
        (3/100) ∧
    (CallableFixedRateBond.mk 100 (5/100) 2 1 [] 0).present_value
        (RateModel.ofCurve ⟨[1, 2], [3/100, 3/100]⟩) =
      (FixedRateBond.mk 100 (5/100) 2 1).present_value
        (RateModel.ofCurve ⟨[1, 2], [3/100, 3/100]⟩) :=
  ⟨rfl, rfl, by norm_num,
   by norm_num [DeterministicZeroCurve.validCurve, List.chain'_cons, List.chain'_singleton],
   rfl,
   C8_flat_curve_amended (CallableFixedRateBond.mk 100 (5/100) 2 1 [] 0)
     (DeterministicZeroCurve.mk [1, 2] [3/100, 3/100]) (3/100) rfl rfl (by norm_num)
     (by norm_num [DeterministicZeroCurve.validCurve, List.chain'_cons,
        List.chain'_singleton])
     rfl⟩

/-! ## Hull-White model (`build/lib/models/hullwhite.py`) -/

/-- `InterestRateModel.continuous_forward_rate` (`models/base.py`) on a
zero curve: finite-difference instantaneous forward over a step `dtq`. -/
noncomputable def DeterministicZeroCurve.continuous_forward_rate
    (c : DeterministicZeroCurve) (t : ℚ) (dtq : ℚ) : Option ℝ :=
  if t < 0 ∨ dtq ≤ 0 then none
  else do
    let df_t ← c.discount_factor t
    let df_tp ← c.discount_factor (t + dtq)
    if df_t ≤ 0 ∨ df_tp ≤ 0 then none
    else some ((Real.log df_t - Real.log df_tp) / ((dtq : ℚ) : ℝ))

/-- `HullWhiteModel`: mean reversion `a`, volatility `sigma`, initial
market curve. -/
structure HullWhiteModel where
  a : ℚ
  sigma : ℚ
  initial_curve : DeterministicZeroCurve

/-- `HullWhiteModel._theta`: curve-fitted drift via finite differences
of the continuous forward rate with step `1e-4`. -/
noncomputable def HullWhiteModel.theta (m : HullWhiteModel) (t : ℚ) : Option ℝ := do
  let dtq : ℚ := 1/10000
  let f_t ← m.initial_curve.continuous_forward_rate t dtq
  let f_tp ← m.initial_curve.continuous_forward_rate (t + dtq) dtq
  let dfd_t : ℝ := (f_tp - f_t) / ((dtq : ℚ) : ℝ)
  pure (dfd_t + (m.a : ℝ) * f_t + ((m.sigma : ℝ)^2 / (2 * (m.a : ℝ))) *
    (1 - Real.exp (-2 * (m.a : ℝ) * ((t : ℚ) : ℝ))))

/-- One Euler step of the path simulation across all paths:
`rates[:, i+1] = rates[:, i] + (theta - a*rates[:, i])*dt + sigma*sqrt(dt)*z`. -/
noncomputable def hwStep (a sigma dtq : ℚ) (th : ℝ) (z : ℕ → ℝ) (n_paths : ℕ)
    (col : List ℝ) : List ℝ :=
  (List.range n_paths).map (fun p =>
    col.getD p 0 + ((th - (a : ℝ) * col.getD p 0) * ((dtq : ℚ) : ℝ) +
      (sigma : ℝ) * Real.sqrt ((dtq : ℚ) : ℝ) * z p))

/-- The simulation loop over time steps, returning the list of rate
columns (one per time grid point). -/
noncomputable def hwLoop (m : HullWhiteModel) (rng : ℕ → ℕ → ℝ) (dtq : ℚ)
    (n_paths : ℕ) : ℕ → ℕ → List ℝ → Option (List (List ℝ))
  | 0, _, col => some [col]
  | fuel + 1, i, col => do
    let th ← m.theta ((i : ℚ) * dtq)
    let next := hwStep m.a m.sigma dtq th (rng i) n_paths col
    let rest ← hwLoop m rng dtq n_paths fuel (i + 1) next
    pure (col :: rest)

/-- The ambient randomness state.  `np.random.default_rng(seed)` with an
explicit integer seed is a pure function of the seed; with `seed=None`
it draws fresh OS entropy, modelled here as consuming the world's
entropy counter.  `gauss s i p` abstracts the `p`-th element of the
`i`-th `standard_normal` block of the generator seeded with `s`. -/
structure RNGWorld where
  entropy : ℕ

/-- `np.random.default_rng`: seeded construction ignores the world;
unseeded construction consumes world entropy. -/
def defaultRng (gauss : ℕ → ℕ → ℕ → ℝ) (seed : Option ℕ) (w : RNGWorld) :
    (ℕ → ℕ → ℝ) × RNGWorld :=
  match seed with
  | some s => (gauss s, w)
  | none => (gauss w.entropy, ⟨w.entropy + 1⟩)

/-- `HullWhiteModel.simulate_short_rate_paths`: validates the arguments,
constructs the generator, seeds the first column with the time-0 short
rate and iterates the Euler steps. -/
noncomputable def HullWhiteModel.simulate_short_rate_paths (m : HullWhiteModel)
    (gauss : ℕ → ℕ → ℕ → ℝ) (horizon_years : ℚ) (n_steps n_paths : ℤ)
    (seed : Option ℕ) (w : RNGWorld) : Option (List (List ℝ)) × RNGWorld :=
  if horizon_years ≤ 0 ∨ n_steps ≤ 0 ∨ n_paths ≤ 0 then (none, w)
  else
    let rngw := defaultRng gauss seed w
    let dtq : ℚ := horizon_years / (n_steps : ℚ)
    match m.initial_curve.short_rate 0 with
    | none => (none, rngw.2)
    | some r0 =>
      (hwLoop m rngw.1 dtq n_paths.toNat n_steps.toNat 0
        (List.replicate n_paths.toNat ((r0 : ℚ) : ℝ)), rngw.2)

/-- C9: with an explicit integer seed, `simulate_short_rate_paths` is a
pure function of the model and the argument tuple — two separate calls,
in any two ambient randomness states, return identical path matrices,
for every abstract generator family.  (With `seed=None` the result
depends on the consumed entropy, so the restriction to explicit seeds is
essential.) -/
theorem C9_seeded_simulation_deterministic :
    ∀ (m : HullWhiteModel) (gauss : ℕ → ℕ → ℕ → ℝ) (horizon_years : ℚ)
      (n_steps n_paths : ℤ) (s : ℕ) (w1 w2 : RNGWorld),
      (m.simulate_short_rate_paths gauss horizon_years n_steps n_paths (some s) w1).1 =
      (m.simulate_short_rate_paths gauss horizon_years n_steps n_paths (some s) w2).1 := by
  intro m gauss horizon_years n_steps n_paths s w1 w2
  unfold HullWhiteModel.simulate_short_rate_paths
  by_cases hval : horizon_years ≤ 0 ∨ n_steps ≤ 0 ∨ n_paths ≤ 0
  · rw [if_pos hval, if_pos hval]
  · rw [if_neg hval, if_neg hval]
    cases hsc : m.initial_curve.short_rate 0 <;> simp only [defaultRng, hsc]

/-! ## Curve bootstrap (`src/models/calibration.py`) -/

/-- `DepositQuote`. -/
structure DepositQuote where
  tenor_years : ℚ
  simple_rate : ℚ

/-- `SwapQuote`. -/
structure SwapQuote where
  maturity_years : ℚ
  par_rate : ℚ
  fixed_frequency : ℤ := 1

/-- The curve produced by the bootstrap: exact tenors, real zero rates
(the `__post_init__` checks of `DeterministicZeroCurve` are performed by
the constructor call at the end of `bootstrap_zero_curve`). -/
structure RealZeroCurve where
  tenors : List ℚ
  zero_rates : List ℝ

/-- One deposit of the bootstrap: validates the quote and inserts
`DF(T) = 1/(1+r*T)` (a zero denominator is a `ZeroDivisionError`). -/
def depositStep (dfs : List (ℚ × ℚ)) (d : DepositQuote) : Option (List (ℚ × ℚ)) :=
  if d.tenor_years ≤ 0 then none
  else if d.simple_rate < -(99/100) then none
  else if 1 + d.simple_rate * d.tenor_years = 0 then none
  else some (upsert dfs d.tenor_years (1 / (1 + d.simple_rate * d.tenor_years)))

/-- The fixed-leg payment grid `[i*dt for i in range(1, n+1)]` of a swap. -/
def swapPayTimes (dt : ℚ) (n : ℕ) : List ℚ :=
  (List.range' 1 n).map (fun i => (i : ℚ) * dt)

/-- One swap of the bootstrap: validates the quote, requires every
earlier grid discount factor to be present, and inserts
`DF(T) = (1 - K*known_leg)/(1 + K*dt)` unless it is non-positive
(a zero denominator is a `ZeroDivisionError`). -/
def swapStep (dfs : List (ℚ × ℚ)) (s : SwapQuote) : Option (List (ℚ × ℚ)) :=
  if s.maturity_years ≤ 0 then none
  else if s.fixed_frequency ≤ 0 then none
  else
    let dt : ℚ := 1 / s.fixed_frequency
    let n : ℤ := pyRound (s.maturity_years * s.fixed_frequency)
    if n ≤ 0 then none
    else
      match ((swapPayTimes dt n.toNat).dropLast).mapM (fun t => lookupLast dfs t) with
      | none => none
      | some dfl =>
        let known_leg : ℚ := (dfl.map (fun df => dt * df)).sum
        let numerator : ℚ := 1 - s.par_rate * known_leg
        let denominator : ℚ := 1 + s.par_rate * dt
        if denominator = 0 then none
        else
          let df_T : ℚ := numerator / denominator
          if df_T ≤ 0 then none
          else some (upsert dfs s.maturity_years df_T)

/-- `bootstrap_zero_curve` (curve component; the diagnostics cannot
raise once the bootstrap itself has succeeded).  Validates the
interpolation label and non-emptiness, folds deposits then swaps in
tenor order through the discount-factor dict, and builds the node curve
with `zero_rates = -ln(max(DF,1e-16))/max(T,1e-16)`. -/
noncomputable def bootstrap_zero_curve (deposits : List DepositQuote) (swaps : List SwapQuote)
    (interpolation : String) : Option RealZeroCurve :=
  if ¬ (interpolation = "linear_zero" ∨ interpolation = "log_df") then none
  else
    let dep_sorted := List.insertionSort
      (fun a b => a.tenor_years ≤ b.tenor_years) deposits
    let sw_sorted := List.insertionSort
      (fun a b => a.maturity_years ≤ b.maturity_years) swaps
    if dep_sorted.isEmpty && sw_sorted.isEmpty then none
    else do
      let dfs1 ← dep_sorted.foldlM depositStep []
      let dfs2 ← sw_sorted.foldlM swapStep dfs1
      let tenors := sortQ (dfs2.map Prod.fst)
      let zero_rates := tenors.map (fun t =>
        -Real.log (max (((lookupLast dfs2 t).getD 0 : ℚ) : ℝ) ((1/10^16 : ℚ) : ℝ)) /
          max ((t : ℚ) : ℝ) ((1/10^16 : ℚ) : ℝ))
      if tenors.length = zero_rates.length ∧ 2 ≤ tenors.length ∧
          tenors.Chain' (· < ·) then
        some ⟨tenors, zero_rates⟩
      else none

/-- Key membership in the discount-factor dict. -/
def hasKey (l : List (ℚ × ℚ)) (t : ℚ) : Prop := ∃ p ∈ l, p.1 = t

lemma mapM_eq_none_iff {α β : Type} (f : α → Option β) :
    ∀ (l : List α), l.mapM f = none ↔ ∃ x ∈ l, f x = none := by
  intro l
  induction l with
  | nil =>
    constructor
    · intro h
      rw [show ([] : List α).mapM f = some [] from rfl] at h
      cases h
    · rintro ⟨x, hx, _⟩
      cases hx
  | cons a l ih =>
    rw [List.mapM_cons]
    cases ha : f a with
    | none =>
      constructor
      · intro _
        exact ⟨a, List.mem_cons_self a l, ha⟩
      · intro _
        rfl
    | some b =>
      cases hl : l.mapM f with
      | none =>
        constructor
        · intro _
          obtain ⟨x, hx, hfx⟩ := ih.mp hl
          exact ⟨x, List.mem_cons_of_mem a hx, hfx⟩
        · intro _
          rfl
      | some bs =>
        constructor
        · intro h
          exact Option.noConfusion h
        · rintro ⟨x, hx, hfx⟩
          rcases List.mem_cons.mp hx with hxa | hxl
          · rw [hxa] at hfx
            rw [hfx] at ha
            cases ha
          · have hmm := ih.mpr ⟨x, hxl, hfx⟩
            rw [hl] at hmm
            cases hmm

lemma upsert_hasKey (l : List (ℚ × ℚ)) (k v t : ℚ) :
    hasKey (upsert l k v) t ↔ hasKey l t ∨ t = k := by
  unfold upsert hasKey
  cases h : l.any (fun p => p.1 = k) with
  | false =>
    simp only [Bool.false_eq_true, if_false, List.mem_append, List.mem_singleton]
    constructor
    · rintro ⟨p, hp | hp, hpt⟩
      · exact Or.inl ⟨p, hp, hpt⟩
      · rw [hp] at hpt; exact Or.inr hpt.symm
    · rintro (⟨p, hp, hpt⟩ | ht)
      · exact ⟨p, Or.inl hp, hpt⟩
      · exact ⟨(k, v), Or.inr rfl, ht.symm⟩
  | true =>
    simp only [if_true]
    constructor
    · rintro ⟨p', hp', hpt⟩
      obtain ⟨p, hp, hfp⟩ := List.mem_map.mp hp'
      by_cases hpk : p.1 = k
      · rw [if_pos hpk] at hfp
        rw [← hfp] at hpt
        exact Or.inr hpt.symm
      · rw [if_neg hpk] at hfp
        rw [← hfp] at hpt
        exact Or.inl ⟨p, hp, hpt⟩
    · rintro (⟨p, hp, hpt⟩ | ht)
      · by_cases hpk : p.1 = k
        · obtain ⟨p0, hp0, hp0k⟩ := List.any_eq_true.mp h
          refine ⟨(k, v), List.mem_map.mpr ⟨p0, hp0, by rw [if_pos (by simpa using hp0k)]⟩, ?_⟩
          rw [← hpt, hpk]
        · exact ⟨p, List.mem_map.mpr ⟨p, hp, by rw [if_neg hpk]⟩, hpt⟩
      · obtain ⟨p0, hp0, hp0k⟩ := List.any_eq_true.mp h
        refine ⟨(k, v), List.mem_map.mpr ⟨p0, hp0, by rw [if_pos (by simpa using hp0k)]⟩, ?_⟩
        exact ht.symm

lemma depositStep_some {dfs dfs' : List (ℚ × ℚ)} {d : DepositQuote}
    (h : depositStep dfs d = some dfs') :
    dfs' = upsert dfs d.tenor_years (1 / (1 + d.simple_rate * d.tenor_years)) := by
  unfold depositStep at h
  split_ifs at h
  exact (Option.some_inj.mp h).symm

lemma swapStep_some {dfs dfs' : List (ℚ × ℚ)} {s : SwapQuote}
    (h : swapStep dfs s = some dfs') :
    ∃ v, dfs' = upsert dfs s.maturity_years v := by
  unfold swapStep at h
  dsimp only at h
  by_cases h1 : s.maturity_years ≤ 0
  · rw [if_pos h1] at h; cases h
  rw [if_neg h1] at h
  by_cases h2 : s.fixed_frequency ≤ 0
  · rw [if_pos h2] at h; cases h
  rw [if_neg h2] at h
  by_cases h3 : pyRound (s.maturity_years * s.fixed_frequency) ≤ 0
  · rw [if_pos h3] at h; cases h
  rw [if_neg h3] at h
  cases hm : ((swapPayTimes (1 / (s.fixed_frequency : ℚ))
      (pyRound (s.maturity_years * s.fixed_frequency)).toNat).dropLast).mapM
      (fun t => lookupLast dfs t) with
  | none =>
    rw [hm] at h
    dsimp only at h
    cases h
  | some dfl =>
    rw [hm] at h
    dsimp only at h
    by_cases h4 : (1 + s.par_rate * (1 / (s.fixed_frequency : ℚ))) = 0
    · rw [if_pos h4] at h; cases h
    rw [if_neg h4] at h
    by_cases h5 : (1 - s.par_rate *
        (dfl.map (fun df => (1 / (s.fixed_frequency : ℚ)) * df)).sum) /
        (1 + s.par_rate * (1 / (s.fixed_frequency : ℚ))) ≤ 0
    · rw [if_pos h5] at h; cases h
    rw [if_neg h5] at h
    exact ⟨_, (Option.some_inj.mp h).symm⟩

lemma foldlM_depositStep_keys :
    ∀ (ds : List DepositQuote) (dfs0 dfs1 : List (ℚ × ℚ)),
      ds.foldlM depositStep dfs0 = some dfs1 →
      ∀ t, hasKey dfs1 t ↔ (hasKey dfs0 t ∨ ∃ q ∈ ds, q.tenor_years = t) := by
  intro ds
  induction ds with
  | nil =>
    intro dfs0 dfs1 h t
    rw [show List.foldlM depositStep dfs0 [] = some dfs0 from rfl] at h
    rw [← Option.some_inj.mp h]
    simp
  | cons d ds ih =>
    intro dfs0 dfs1 h t
    rw [List.foldlM_cons] at h
    cases hstep : depositStep dfs0 d with
    | none => rw [hstep] at h; cases h
    | some dfs2 =>
      rw [hstep] at h
      have h2 : List.foldlM depositStep dfs2 ds = some dfs1 := h
      have hkeys2 := ih dfs2 dfs1 h2 t
      rw [depositStep_some hstep, upsert_hasKey] at hkeys2
      rw [hkeys2]
      constructor
      · rintro ((hk | ht) | ⟨q, hq, hqt⟩)
        · exact Or.inl hk
        · exact Or.inr ⟨d, List.mem_cons_self d ds, ht.symm⟩
        · exact Or.inr ⟨q, List.mem_cons_of_mem d hq, hqt⟩
      · rintro (hk | ⟨q, hq, hqt⟩)
        · exact Or.inl (Or.inl hk)
        · rcases List.mem_cons.mp hq with hqd | hqds
          · exact Or.inl (Or.inr (by rw [hqd] at hqt; exact hqt.symm))
          · exact Or.inr ⟨q, hqds, hqt⟩

lemma foldlM_swapStep_keys :
    ∀ (sw : List SwapQuote) (dfs0 dfs1 : List (ℚ × ℚ)),
      sw.foldlM swapStep dfs0 = some dfs1 →
      ∀ t, hasKey dfs1 t ↔ (hasKey dfs0 t ∨ ∃ q ∈ sw, q.maturity_years = t) := by
  intro sw
  induction sw with
  | nil =>
    intro dfs0 dfs1 h t
    rw [show List.foldlM swapStep dfs0 [] = some dfs0 from rfl] at h
    rw [← Option.some_inj.mp h]
    simp
  | cons s sw ih =>
    intro dfs0 dfs1 h t
    rw [List.foldlM_cons] at h
    cases hstep : swapStep dfs0 s with
    | none => rw [hstep] at h; cases h
    | some dfs2 =>
      rw [hstep] at h
      have h2 : List.foldlM swapStep dfs2 sw = some dfs1 := h
      have hkeys2 := ih dfs2 dfs1 h2 t
      obtain ⟨v, hv⟩ := swapStep_some hstep
      rw [hv, upsert_hasKey] at hkeys2
      rw [hkeys2]
      constructor
      · rintro ((hk | ht) | ⟨q, hq, hqt⟩)
        · exact Or.inl hk
        · exact Or.inr ⟨s, List.mem_cons_self s sw, ht.symm⟩
        · exact Or.inr ⟨q, List.mem_cons_of_mem s hq, hqt⟩
      · rintro (hk | ⟨q, hq, hqt⟩)
        · exact Or.inl (Or.inl hk)
        · rcases List.mem_cons.mp hq with hqs | hqsw
          · exact Or.inl (Or.inr (by rw [hqs] at hqt; exact hqt.symm))
          · exact Or.inr ⟨q, hqsw, hqt⟩

/-- C6 (amended): `bootstrap_zero_curve` raises in more cases than the
claim admits — unsupported interpolation label, an empty quote set, and
(per the constructor of the returned curve) fewer than two bootstrapped
nodes, besides the per-quote validations.  What is true: (1) a bad
label raises; (2) an empty quote set raises; (3) on success the curve
has at least two strictly increasing node tenors which are exactly the
deposit tenors and swap maturities of the input, with zero rates
`-ln(max(DF,1e-16))/max(T,1e-16)` at the node discount factors; (4) for
each swap whose own field validations pass, the bootstrap step fails
exactly when an earlier grid discount factor is missing or the freshly
bootstrapped discount factor is non-positive. -/
theorem C6_bootstrap_amended :
    (∀ (d : List DepositQuote) (s : List SwapQuote) (i : String),
      ¬ (i = "linear_zero" ∨ i = "log_df") → bootstrap_zero_curve d s i = none) ∧
    (∀ i : String, bootstrap_zero_curve [] [] i = none) ∧
    (∀ (d : List DepositQuote) (s : List SwapQuote) (i : String) (c : RealZeroCurve),
      bootstrap_zero_curve d s i = some c →
      2 ≤ c.tenors.length ∧ c.tenors.Chain' (· < ·) ∧
      ∃ dfs : List (ℚ × ℚ),
        c.tenors = sortQ (dfs.map Prod.fst) ∧
        c.zero_rates = c.tenors.map (fun t =>
          -Real.log (max (((lookupLast dfs t).getD 0 : ℚ) : ℝ) ((1/10^16 : ℚ) : ℝ)) /
            max ((t : ℚ) : ℝ) ((1/10^16 : ℚ) : ℝ)) ∧
        (∀ t : ℚ, hasKey dfs t ↔
          ((∃ q ∈ d, q.tenor_years = t) ∨ ∃ q ∈ s, q.maturity_years = t))) ∧
    (∀ (dfs : List (ℚ × ℚ)) (s : SwapQuote),
      0 < s.maturity_years → 0 < s.fixed_frequency →
      0 < pyRound (s.maturity_years * s.fixed_frequency) →
      1 + s.par_rate * (1 / (s.fixed_frequency : ℚ)) ≠ 0 →
      (swapStep dfs s = none ↔
        (∃ t ∈ (swapPayTimes (1 / (s.fixed_frequency : ℚ))
            (pyRound (s.maturity_years * s.fixed_frequency)).toNat).dropLast,
          lookupLast dfs t = none) ∨
        ∃ dfl : List ℚ,
          ((swapPayTimes (1 / (s.fixed_frequency : ℚ))
            (pyRound (s.maturity_years * s.fixed_frequency)).toNat).dropLast).mapM
            (fun t => lookupLast dfs t) = some dfl ∧
          (1 - s.par_rate * (dfl.map (fun df => (1 / (s.fixed_frequency : ℚ)) * df)).sum) /
            (1 + s.par_rate * (1 / (s.fixed_frequency : ℚ))) ≤ 0)) := by
  refine ⟨?_, ?_, ?_, ?_⟩
  · intro d s i hi
    unfold bootstrap_zero_curve
    rw [if_pos hi]
  · intro i
    unfold bootstrap_zero_curve
    by_cases hi : i = "linear_zero" ∨ i = "log_df"
    · rw [if_neg (not_not_intro hi)]
      rfl
    · rw [if_pos hi]
  · intro d s i c h
    unfold bootstrap_zero_curve at h
    by_cases hlabel : ¬ (i = "linear_zero" ∨ i = "log_df")
    · rw [if_pos hlabel] at h; cases h
    rw [if_neg hlabel] at h
    dsimp only at h
    by_cases hemp : ((List.insertionSort (fun a b => a.tenor_years ≤ b.tenor_years) d).isEmpty
        && (List.insertionSort (fun a b => a.maturity_years ≤ b.maturity_years) s).isEmpty) = true
    · rw [if_pos hemp] at h; cases h
    rw [if_neg hemp] at h
    obtain ⟨dfs1, hd, h⟩ := Option.bind_eq_some.mp h
    obtain ⟨dfs2, hs, h⟩ := Option.bind_eq_some.mp h
    try dsimp only at h
    by_cases hcond : ((sortQ (dfs2.map Prod.fst)).length =
        ((sortQ (dfs2.map Prod.fst)).map (fun t =>
          -Real.log (max (((lookupLast dfs2 t).getD 0 : ℚ) : ℝ) ((1/10^16 : ℚ) : ℝ)) /
            max ((t : ℚ) : ℝ) ((1/10^16 : ℚ) : ℝ))).length ∧
        2 ≤ (sortQ (dfs2.map Prod.fst)).length ∧
        (sortQ (dfs2.map Prod.fst)).Chain' (· < ·))
    · rw [if_pos hcond] at h
      obtain ⟨hlen, hlen2, hchain⟩ := hcond
      rw [← Option.some_inj.mp h]
      refine ⟨hlen2, hchain, dfs2, rfl, rfl, ?_⟩
      intro t
      have hk1 := foldlM_depositStep_keys _ _ _ hd t
      have hk2 := foldlM_swapStep_keys _ _ _ hs t
      rw [hk1] at hk2
      rw [hk2]
      have hkf : hasKey [] t ↔ False := by
        unfold hasKey
        simp
      rw [hkf]
      have hpd : ∀ q : DepositQuote,
          (q ∈ List.insertionSort (fun a b => a.tenor_years ≤ b.tenor_years) d ↔ q ∈ d) :=
        fun q => (List.perm_insertionSort _ d).mem_iff
      have hps : ∀ q : SwapQuote,
          (q ∈ List.insertionSort (fun a b => a.maturity_years ≤ b.maturity_years) s ↔ q ∈ s) :=
        fun q => (List.perm_insertionSort _ s).mem_iff
      constructor
      · rintro ((hfalse | ⟨q, hq, hqt⟩) | ⟨q, hq, hqt⟩)
        · cases hfalse
        · exact Or.inl ⟨q, (hpd q).mp hq, hqt⟩
        · exact Or.inr ⟨q, (hps q).mp hq, hqt⟩
      · rintro (⟨q, hq, hqt⟩ | ⟨q, hq, hqt⟩)
        · exact Or.inl (Or.inr ⟨q, (hpd q).mpr hq, hqt⟩)
        · exact Or.inr ⟨q, (hps q).mpr hq, hqt⟩
    · rw [if_neg hcond] at h; cases h
  · intro dfs s hm hf hn hden
    unfold swapStep
    rw [if_neg (not_le.mpr hm), if_neg (not_le.mpr hf)]
    dsimp only
    rw [if_neg (not_le.mpr hn)]
    cases hmp : ((swapPayTimes (1 / (s.fixed_frequency : ℚ))
        (pyRound (s.maturity_years * s.fixed_frequency)).toNat).dropLast).mapM
        (fun t => lookupLast dfs t) with
    | none =>
      simp only [hmp]
      constructor
      · intro _
        exact Or.inl ((mapM_eq_none_iff _ _).mp hmp)
      · intro _
        trivial
    | some dfl =>
      simp only [hmp]
      rw [if_neg hden]
      by_cases hdf : (1 - s.par_rate *
          (dfl.map (fun df => (1 / (s.fixed_frequency : ℚ)) * df)).sum) /
          (1 + s.par_rate * (1 / (s.fixed_frequency : ℚ))) ≤ 0
      · rw [if_pos hdf]
        constructor
        · intro _
          exact Or.inr ⟨dfl, rfl, hdf⟩
        · intro _
          trivial
      · rw [if_neg hdf]
        constructor
        · intro hcontra
          cases hcontra
        · rintro (⟨t, ht, hlk⟩ | ⟨dfl2, hdfl2, hle⟩)
          · have hcontra := (mapM_eq_none_iff (fun t => lookupLast dfs t) _).mpr ⟨t, ht, hlk⟩
            rw [hmp] at hcontra
            cases hcontra
          · rw [← Option.some_inj.mp hdfl2] at hle
            exact absurd hle hdf

/-- C6: the claim's "fails exactly when ..." is false.  A single valid
deposit (tenor 1y, rate 5%, positive discount factor) and no swaps has
neither of the claimed failure conditions, yet `bootstrap_zero_curve`
raises: the resulting one-node curve is rejected by the
`DeterministicZeroCurve` constructor (fewer than two tenor points). -/
theorem C6_counterexample :
    bootstrap_zero_curve [⟨1, 5/100⟩] [] "linear_zero" = none ∧
    (0 : ℚ) < 1 ∧ ¬ ((5/100 : ℚ) < -(99/100)) ∧
    (0 : ℚ) < 1 / (1 + (5/100 : ℚ) * 1) := by
  refine ⟨?_, by norm_num, by norm_num, by norm_num⟩
  norm_num [bootstrap_zero_curve, List.insertionSort, List.orderedInsert, depositStep,
    upsert, sortQ, lookupLast, List.foldlM_cons, List.foldlM_nil, List.isEmpty]

/-- Witness for `C6_bootstrap_amended` (success clause): two zero-rate
deposits at tenors 1y and 2y bootstrap successfully into the two-node
curve with zero rates `[0, 0]`. -/
theorem C6_witness :
    ∃ c : RealZeroCurve,
      bootstrap_zero_curve [⟨1, 0⟩, ⟨2, 0⟩] [] "linear_zero" = some c ∧
      2 ≤ c.tenors.length ∧ c.tenors.Chain' (· < ·) := by
  have heval : bootstrap_zero_curve [⟨1, 0⟩, ⟨2, 0⟩] [] "linear_zero" =
      some (RealZeroCurve.mk [1, 2] [0, 0]) := by
    norm_num [bootstrap_zero_curve, List.insertionSort, List.orderedInsert, depositStep,
      upsert, sortQ, lookupLast, List.foldlM_cons, List.foldlM_nil, List.isEmpty,
      List.chain'_cons, Real.log_one]
  obtain ⟨h1, h2, _⟩ :=
    C6_bootstrap_amended.2.2.1 [⟨1, 0⟩, ⟨2, 0⟩] [] "linear_zero" _ heval
  exact ⟨_, heval, h1, h2⟩
